import Mathlib

/-!
Verification of the context-DB migration engine (`src/engine.py`, `src/server.py`)
against its natural-language specification.

The Python source is shallowly embedded: the filesystem (migrations directory)
is a list of `(filename, content)` pairs, the `schema_migrations` table is a
list of `LedgerRow`s, the target schema is an abstract `Nat`, and SQL execution
by the database adapter is a function parameter returning `Except String`
(an exception carries its message). All string manipulation is implemented by
structural recursion over the character list so that every definition is
kernel-executable.
-/

/-! ## Character-list string helpers (Python string semantics) -/

/-- Does `p` match the front of `l`? (used for Python substring search). -/
def matchesFront : List Char → List Char → Bool
  | [], _ => true
  | _ :: _, [] => false
  | p :: ps, c :: cs => p == c && matchesFront ps cs

/-- Does `needle` occur as a contiguous substring of `hay`?
(Python `needle in hay`). -/
def hasSub (needle : List Char) : List Char → Bool
  | [] => matchesFront needle []
  | c :: cs => matchesFront needle (c :: cs) || hasSub needle cs

/-- Python `hay.__contains__(needle)` on strings. -/
def strContains (hay needle : String) : Bool :=
  hasSub needle.data hay.data

/-- Fuelled worker for Python `str.replace` (replace all occurrences,
left to right, non-overlapping); the fuel is the length of the scanned list,
enough because a non-empty pattern consumes at least one character per step. -/
def pyReplaceAux (patt repl : List Char) : Nat → List Char → List Char
  | _, [] => []
  | 0, s => s
  | fuel + 1, c :: cs =>
      if matchesFront patt (c :: cs) then
        repl ++ pyReplaceAux patt repl fuel (List.drop (patt.length - 1) cs)
      else
        c :: pyReplaceAux patt repl fuel cs

/-- Python `s.replace(patt, repl)` for a non-empty pattern (the only use in the
source); for the empty pattern we return `s` unchanged (never used). -/
def pyReplace (s patt repl : String) : String :=
  if patt.data.isEmpty then s
  else ⟨pyReplaceAux patt.data repl.data s.data.length s.data⟩

/-- Python `s.endswith(suffixStr)`. -/
def pyEndsWith (s sfx : String) : Bool :=
  matchesFront sfx.data.reverse s.data.reverse

/-- Python slicing `s[:n]` (by characters). -/
def pyTake (s : String) (n : Nat) : String :=
  ⟨s.data.take n⟩

/-- Python `len(s)` (in characters). -/
def pyLen (s : String) : Nat :=
  s.data.length

/-- Python `s.lower()` (ASCII case mapping, which covers the source usage). -/
def pyLower (s : String) : String :=
  ⟨s.data.map Char.toLower⟩

/-- Python `s.upper()` (ASCII case mapping, which covers the source usage). -/
def pyUpper (s : String) : String :=
  ⟨s.data.map Char.toUpper⟩

/-- Python `int(s)` restricted to digit strings, as `none` on failure
(a raised `ValueError` in Python). -/
def pyToNat (s : String) : Option Nat :=
  if s.data ≠ [] ∧ s.data.all Char.isDigit then
    some (s.data.foldl (fun n c => n * 10 + (c.toNat - 48)) 0)
  else
    none

/-- Python `s.split(sep, 1)` at a single character: the part before the first
occurrence and, when the character occurs, the part after it. -/
def splitAtFirst (sep : Char) : List Char → List Char × Option (List Char)
  | [] => ([], none)
  | c :: cs =>
      if c == sep then ([], some cs)
      else
        let r := splitAtFirst sep cs
        (c :: r.1, r.2)

/-- A single-quote character as a string (used in the safety-block message). -/
def squote : String :=
  ⟨[Char.ofNat 39]⟩

/-! ## Stable ascending sort (Python `sorted` / SQL `ORDER BY ... ASC`)

Implemented as stable insertion sort by a boolean comparison, with the
permutation and sortedness lemmas needed later. -/

/-- Insert `a` before the first element `b` with `le a b` (stable). -/
def insertSorted (le : α → α → Bool) (a : α) : List α → List α
  | [] => [a]
  | b :: bs => if le a b then a :: b :: bs else b :: insertSorted le a bs

/-- Stable ascending sort, Python `sorted(l, key=identity)` semantics for a
total preorder `le`. -/
def pySorted (le : α → α → Bool) (l : List α) : List α :=
  l.foldr (insertSorted le) []

theorem insertSorted_perm (le : α → α → Bool) (a : α) :
    ∀ l : List α, List.Perm (insertSorted le a l) (a :: l) := by
  intro l
  induction l with
  | nil => simp [insertSorted]
  | cons b bs ih =>
      by_cases h : le a b
      · simp [insertSorted, h]
      · simp only [insertSorted, h, if_neg, Bool.false_eq_true, if_false]
        exact (ih.cons b).trans (List.Perm.swap a b bs)

theorem pySorted_perm (le : α → α → Bool) :
    ∀ l : List α, List.Perm (pySorted le l) l := by
  intro l
  induction l with
  | nil => simp [pySorted]
  | cons a as ih =>
      simpa [pySorted] using (insertSorted_perm le a (pySorted le as)).trans (ih.cons a)

theorem mem_pySorted (le : α → α → Bool) (l : List α) (a : α) :
    a ∈ pySorted le l ↔ a ∈ l :=
  (pySorted_perm le l).mem_iff

theorem pairwise_insertSorted (le : α → α → Bool)
    (htrans : ∀ a b c, le a b = true → le b c = true → le a c = true)
    (htotal : ∀ a b, le a b = true ∨ le b a = true)
    (a : α) : ∀ l : List α, l.Pairwise (fun x y => le x y = true) →
      (insertSorted le a l).Pairwise (fun x y => le x y = true) := by
  intro l
  induction l with
  | nil => intro _; simp [insertSorted]
  | cons b bs ih =>
      intro hp
      rcases List.pairwise_cons.mp hp with ⟨hb, hbs⟩
      by_cases h : le a b
      · simp only [insertSorted, h, if_true]
        refine List.pairwise_cons.mpr ⟨?_, hp⟩
        intro x hx
        rcases hx with _ | hx
        · exact h
        · exact htrans a b x h (hb x (by assumption))
      · simp only [insertSorted, h, Bool.false_eq_true, if_false]
        refine List.pairwise_cons.mpr ⟨?_, ih hbs⟩
        intro x hx
        have hx' := List.mem_cons.mp ((insertSorted_perm le a bs).mem_iff.mp hx)
        rcases hx' with hx' | hx'
        · rcases htotal a b with h' | h'
          · exact absurd h' h
          · rw [hx']; exact h'
        · exact hb x hx'

theorem pairwise_pySorted (le : α → α → Bool)
    (htrans : ∀ a b c, le a b = true → le b c = true → le a c = true)
    (htotal : ∀ a b, le a b = true ∨ le b a = true) :
    ∀ l : List α, (pySorted le l).Pairwise (fun x y => le x y = true) := by
  intro l
  induction l with
  | nil => simp [pySorted]
  | cons a as ih => exact pairwise_insertSorted le htrans htotal a _ ih

/-- Lexicographic `≤` on character lists (Python / byte-wise string order). -/
def charListLe : List Char → List Char → Bool
  | [], _ => true
  | _ :: _, [] => false
  | a :: as, b :: bs => if a = b then charListLe as bs else decide (a < b)

/-- Lexicographic `≤` on strings (Python string comparison and SQL `ORDER BY`
on `TEXT` under the binary collation). -/
def strLe (a b : String) : Bool :=
  charListLe a.data b.data

theorem charListLe_total : ∀ a b : List Char, charListLe a b = true ∨ charListLe b a = true := by
  intro a
  induction a with
  | nil => intro b; left; rfl
  | cons x xs ih =>
      intro b
      cases b with
      | nil => right; rfl
      | cons y ys =>
          by_cases hxy : x = y
          · subst hxy
            rcases ih ys with h | h
            · left; simpa [charListLe] using h
            · right; simpa [charListLe] using h
          · rcases lt_or_gt_of_ne hxy with h | h
            · left; simp [charListLe, hxy, h]
            · right
              have : ¬ y = x := fun hc => hxy hc.symm
              simp [charListLe, this, h]

theorem charListLe_trans :
    ∀ a b c : List Char, charListLe a b = true → charListLe b c = true →
      charListLe a c = true := by
  intro a
  induction a with
  | nil => intro b c _ _; rfl
  | cons x xs ih =>
      intro b c hab hbc
      cases b with
      | nil => simp [charListLe] at hab
      | cons y ys =>
          cases c with
          | nil => simp [charListLe] at hbc
          | cons z zs =>
              by_cases hxy : x = y
              · subst hxy
                by_cases hyz : x = z
                · subst hyz
                  simp only [charListLe, if_pos rfl] at hab hbc ⊢
                  exact ih ys zs hab hbc
                · simp only [charListLe, if_pos rfl] at hab
                  simp only [charListLe, if_neg hyz] at hbc ⊢
                  exact hbc
              · simp only [charListLe, if_neg hxy] at hab
                by_cases hyz : y = z
                · subst hyz
                  simp only [charListLe, if_neg hxy]
                  exact hab
                · simp only [charListLe, if_neg hyz] at hbc
                  by_cases hxz : x = z
                  · exfalso
                    subst hxz
                    exact absurd (lt_trans (of_decide_eq_true hab) (of_decide_eq_true hbc))
                      (lt_irrefl x)
                  · simp only [charListLe, if_neg hxz]
                    exact decide_eq_true
                      (lt_trans (of_decide_eq_true hab) (of_decide_eq_true hbc))

theorem strLe_total (a b : String) : strLe a b = true ∨ strLe b a = true :=
  charListLe_total a.data b.data

theorem strLe_trans (a b c : String) :
    strLe a b = true → strLe b c = true → strLe a c = true :=
  charListLe_trans a.data b.data c.data

/-! ## SHA-256 (`hashlib.sha256`, per FIPS 180-4 / RFC 6234)

Words are `Nat` reduced modulo `2^32`; messages and digests are byte lists. -/

/-- Truncate to a 32-bit word. -/
def w32 (n : Nat) : Nat := n % 4294967296

/-- 32-bit rotate right by `b`. -/
def rotr (b n : Nat) : Nat := w32 ((n >>> b) ||| (n <<< (32 - b)))

/-- 32-bit bitwise complement. -/
def wnot (n : Nat) : Nat := 4294967295 - w32 n

def shaSigma0 (x : Nat) : Nat := (rotr 7 x) ^^^ (rotr 18 x) ^^^ (x >>> 3)

def shaSigma1 (x : Nat) : Nat := (rotr 17 x) ^^^ (rotr 19 x) ^^^ (x >>> 10)

def shaBigSigma0 (x : Nat) : Nat := (rotr 2 x) ^^^ (rotr 13 x) ^^^ (rotr 22 x)

def shaBigSigma1 (x : Nat) : Nat := (rotr 6 x) ^^^ (rotr 11 x) ^^^ (rotr 25 x)

def shaCh (e f g : Nat) : Nat := (e &&& f) ^^^ (wnot e &&& g)

def shaMaj (a b c : Nat) : Nat := (a &&& b) ^^^ (a &&& c) ^^^ (b &&& c)

/-- The 64 SHA-256 round constants. -/
def shaK : List Nat :=
  [1116352408, 1899447441, 3049323471, 3921009573, 961987163,
   1508970993, 2453635748, 2870763221, 3624381080, 310598401,
   607225278, 1426881987, 1925078388, 2162078206, 2614888103,
   3248222580, 3835390401, 4022224774, 264347078, 604807628,
   770255983, 1249150122, 1555081692, 1996064986, 2554220882,
   2821834349, 2952996808, 3210313671, 3336571891, 3584528711,
   113926993, 338241895, 666307205, 773529912, 1294757372,
   1396182291, 1695183700, 1986661051, 2177026350, 2456956037,
   2730485921, 2820302411, 3259730800, 3345764771, 3516065817,
   3600352804, 4094571909, 275423344, 430227734, 506948616,
   659060556, 883997877, 958139571, 1322822218, 1537002063,
   1747873779, 1955562222, 2024104815, 2227730452, 2361852424,
   2428436474, 2756734187, 3204031479, 3329325298]

/-- The SHA-256 initial hash value. -/
def shaH0 : List Nat :=
  [1779033703, 3144134277, 1013904242, 2773480762,
   1359893119, 2600822924, 528734635, 1541459225]

/-- Group bytes into big-endian 32-bit words. -/
def toWords : List Nat → List Nat
  | b0 :: b1 :: b2 :: b3 :: rest =>
      (b0 * 16777216 + b1 * 65536 + b2 * 256 + b3) :: toWords rest
  | _ => []

/-- Extend a 16-word block schedule by `n` further words. -/
def extendSchedule : Nat → List Nat → List Nat
  | 0, ws => ws
  | n + 1, ws =>
      let t := ws.length
      let w := w32 (ws.getD (t - 16) 0 + shaSigma0 (ws.getD (t - 15) 0) +
                    ws.getD (t - 7) 0 + shaSigma1 (ws.getD (t - 2) 0))
      extendSchedule n (ws ++ [w])

/-- One SHA-256 compression round on the eight-word working state. -/
def compressRound (k w : Nat) (st : List Nat) : List Nat :=
  match st with
  | [a, b, c, d, e, f, g, h] =>
      let t1 := w32 (h + shaBigSigma1 e + shaCh e f g + k + w)
      let t2 := w32 (shaBigSigma0 a + shaMaj a b c)
      [w32 (t1 + t2), a, b, c, w32 (d + t1), e, f, g]
  | other => other

/-- Process one padded 64-byte chunk. -/
def compressChunk (h : List Nat) (chunk : List Nat) : List Nat :=
  let ws := extendSchedule 48 (toWords chunk)
  let st := (shaK.zip ws).foldl (fun st kw => compressRound kw.1 kw.2 st) h
  List.zipWith (fun x y => w32 (x + y)) h st

/-- The 8-byte big-endian encoding of the message bit length. -/
def lenBytes (n : Nat) : List Nat :=
  (List.range 8).map (fun i => (n >>> (8 * (7 - i))) &&& 255)

/-- SHA-256 padding: `0x80`, zeros to 56 mod 64, then the 64-bit bit length. -/
def padMessage (msg : List Nat) : List Nat :=
  msg ++ 128 :: List.replicate ((119 - msg.length % 64) % 64) 0 ++ lenBytes (8 * msg.length)

/-- Split a (padded) byte list into `n` chunks of 64 bytes. -/
def chunksAux : Nat → List Nat → List (List Nat)
  | 0, _ => []
  | n + 1, l => l.take 64 :: chunksAux n (l.drop 64)

/-- Big-endian bytes of a 32-bit word. -/
def wordBytes (w : Nat) : List Nat :=
  [w / 16777216 % 256, w / 65536 % 256, w / 256 % 256, w % 256]

/-- SHA-256 digest (32 bytes) of a byte-list message. -/
def sha256 (msg : List Nat) : List Nat :=
  let padded := padMessage msg
  ((chunksAux (padded.length / 64) padded).foldl compressChunk shaH0).flatMap wordBytes

/-- Lower-case hexadecimal digit. -/
def hexDigit (n : Nat) : Char :=
  if n < 10 then Char.ofNat (48 + n) else Char.ofNat (87 + n)

/-- Lower-case hexadecimal rendering of a byte list. -/
def bytesToHex (bs : List Nat) : String :=
  ⟨bs.flatMap (fun b => [hexDigit (b / 16), hexDigit (b % 16)])⟩

/-- UTF-8 encoding of one character (Python `str.encode()`), as byte values. -/
def charUtf8 (c : Char) : List Nat :=
  let v := c.toNat
  if v < 128 then [v]
  else if v < 2048 then [192 ||| (v >>> 6), 128 ||| (v &&& 63)]
  else if v < 65536 then
    [224 ||| (v >>> 12), 128 ||| ((v >>> 6) &&& 63), 128 ||| (v &&& 63)]
  else
    [240 ||| (v >>> 18), 128 ||| ((v >>> 12) &&& 63),
     128 ||| ((v >>> 6) &&& 63), 128 ||| (v &&& 63)]

/-- UTF-8 bytes of a string (Python `content.encode()`). -/
def utf8Bytes (s : String) : List Nat :=
  s.data.flatMap charUtf8

/-- Python `hashlib.sha256(s.encode()).hexdigest()`. -/
def sha256hex (s : String) : String :=
  bytesToHex (sha256 (utf8Bytes s))

/-- `MigrationEngine._calculate_checksum` (engine.py:48-50):
first 16 hex characters of the SHA-256 digest of the content. -/
def calculate_checksum (content : String) : String :=
  pyTake (sha256hex content) 16

example : sha256hex "" =
    "e3b0c44298fc1c149afbf4c8996fb92427ae41e4649b934ca495991b7852b855" := by decide

example : sha256hex "abc" =
    "ba7816bf8f01cfea414140de5dae2223b00361a396177a9cb410ff61f20015ad" := by decide

/-! ## Data model

The migrations directory is a list of `(filename, content)` pairs; the
`schema_migrations` table is a list of `LedgerRow`s (insertion order); the
target schema is an abstract `Nat`; the adapter's script execution is a
function parameter returning `Except String` (a raised driver exception
carries its message). Python dicts that are returned to callers are records
whose `Option` fields model the presence or absence of the dict key. -/

/-- The migrations directory: filenames with their current content. -/
abbrev FileSys := List (String × String)

/-- `open(path).read()` for this directory model. -/
def lookupFile (fs : FileSys) (fname : String) : Option String :=
  (fs.find? (fun p => p.1 == fname)).map (·.2)

/-- A row of the `schema_migrations` ledger table. -/
structure LedgerRow where
  version : String
  name : String
  checksum : String
  applied_at : Nat
  execution_time_ms : Nat
deriving DecidableEq

/-- A catalog entry built by `get_available_migrations` (engine.py:74-103). -/
structure MigFile where
  version : String
  name : String
  full_version : String
  filename : String
  checksum : String
  path : String
deriving DecidableEq

/-- Parse one `*.up.sql` filename and hash its content
(loop body of engine.py:82-101; the constant directory prefix of `path`
is omitted, so `path = filename`). -/
def parseMigration (fname content : String) : MigFile :=
  let version_name := pyReplace fname ".up.sql" ""
  let parts := splitAtFirst '_' version_name.data
  { version := ⟨parts.1⟩
    name := ⟨parts.2.getD []⟩
    full_version := version_name
    filename := fname
    checksum := calculate_checksum content
    path := fname }

/-- `MigrationEngine.get_available_migrations`: glob `*.up.sql`, sort the
paths, parse each filename and checksum its content. -/
def get_available_migrations (fs : FileSys) : List MigFile :=
  (pySorted (fun a b => strLe a.1 b.1)
      (fs.filter (fun p => pyEndsWith p.1 ".up.sql"))).map
    (fun p => parseMigration p.1 p.2)

/-- `MigrationEngine.get_applied_migrations`: ledger rows ordered by
`version ASC`. -/
def get_applied_migrations (ledger : List LedgerRow) : List LedgerRow :=
  pySorted (fun a b => strLe a.version b.version) ledger

/-- Python dict `{m["version"]: m for m in ms}` indexing: the last entry for
a version wins. -/
def dictByVersion (ms : List MigFile) (v : String) : Option MigFile :=
  ms.reverse.find? (fun m => m.version == v)

/-- The `applied_checksums` dict of `get_status` (engine.py:115). -/
def appliedChecksumLookup (applied_list : List LedgerRow) (v : String) : Option String :=
  (applied_list.reverse.find? (fun r => r.version == v)).map (·.checksum)

/-- One drift report `{version, expected, actual}` (engine.py:122-128). -/
structure DriftRecord where
  version : String
  expected : String
  actual : String
deriving DecidableEq

/-- The result of `get_status` (engine.py:130-135). -/
structure MigrationStatus where
  pending : List MigFile
  applied : List MigFile
  drift_detected : List DriftRecord
  current_version : Option String
deriving DecidableEq

/-- `MigrationEngine.get_status` (engine.py:105-135). -/
def get_status (fs : FileSys) (ledger : List LedgerRow) : MigrationStatus :=
  let applied_list := get_applied_migrations ledger
  let applied_versions := applied_list.map (·.version)
  let available := get_available_migrations fs
  let pending := available.filter (fun m => !(applied_versions.contains m.version))
  let applied := available.filter (fun m => applied_versions.contains m.version)
  let drift := applied.filterMap (fun m =>
    match appliedChecksumLookup applied_list m.version with
    | some e => if m.checksum ≠ e then some ⟨m.version, e, m.checksum⟩ else none
    | none => none)
  { pending := pending
    applied := applied
    drift_detected := drift
    current_version := (applied_list.getLast?).map (·.version) }

/-- The engine's mutable world: migrations directory, ledger table, and an
abstract target schema. -/
structure EngineState where
  fs : FileSys
  ledger : List LedgerRow
  schema : Nat
deriving DecidableEq

/-- A result dict of `apply_migration` / `rollback_migration`; every literal
in the source carries the `success` key, the other keys are optional. -/
structure OpResult where
  success : Bool
  version : Option String := none
  name : Option String := none
  error : Option String := none
  dry_run : Option Bool := none
  sql_preview : Option String := none
  execution_time_ms : Option Nat := none
  message : Option String := none
deriving DecidableEq

/-- `sql_script[:500] + ("..." if len(sql_script) > 500 else "")`. -/
def sqlPreview (s : String) : String :=
  pyTake s 500 ++ (if pyLen s > 500 then "..." else "")

/-- `MigrationEngine.apply_migration` (engine.py:137-189). `exec` is the
adapter's `execute_script` as a schema transformer; `now` is the ledger
timestamp default and `t` the measured wall-clock duration. -/
def apply_migration (exec : String → Nat → Except String Nat) (st : EngineState)
    (version : String) (dry_run : Bool) (now t : Nat) : OpResult × EngineState :=
  match dictByVersion (get_available_migrations st.fs) version with
  | none => ({success := false, error := some ("Migration " ++ version ++ " not found")}, st)
  | some migration =>
      let applied_versions := (get_applied_migrations st.ledger).map (·.version)
      if applied_versions.contains version then
        ({success := false,
          error := some ("Migration " ++ version ++ " already applied")}, st)
      else
        let sql_script := (lookupFile st.fs migration.path).getD ""
        if dry_run then
          ({success := true, dry_run := some true, version := some version,
            name := some migration.name,
            sql_preview := some (sqlPreview sql_script)}, st)
        else
          match exec sql_script st.schema with
          | .error e => ({success := false, version := some version, error := some e}, st)
          | .ok schema2 =>
              ({success := true, version := some version, name := some migration.name,
                execution_time_ms := some t},
               {st with schema := schema2,
                        ledger := st.ledger ++
                          [{version := version, name := migration.name,
                            checksum := migration.checksum, applied_at := now,
                            execution_time_ms := t}]})

/-- `MigrationEngine.rollback_migration` (engine.py:191-240). -/
def rollback_migration (exec : String → Nat → Except String Nat) (st : EngineState)
    (version : String) (dry_run : Bool) : OpResult × EngineState :=
  match dictByVersion (get_available_migrations st.fs) version with
  | none => ({success := false, error := some ("Migration " ++ version ++ " not found")}, st)
  | some migration =>
      let down_path := pyReplace migration.path ".up.sql" ".down.sql"
      if (lookupFile st.fs down_path).isNone then
        ({success := false, error := some ("Rollback file not found: " ++ down_path)}, st)
      else
        let applied_versions := (get_applied_migrations st.ledger).map (·.version)
        if !(applied_versions.contains version) then
          ({success := false,
            error := some ("Migration " ++ version ++ " is not applied")}, st)
        else
          let sql_script := (lookupFile st.fs down_path).getD ""
          if dry_run then
            ({success := true, dry_run := some true, version := some version,
              sql_preview := some (sqlPreview sql_script)}, st)
          else
            match exec sql_script st.schema with
            | .error e =>
                ({success := false, version := some version, error := some e}, st)
            | .ok schema2 =>
                ({success := true, version := some version,
                  message := some ("Rolled back " ++ version)},
                 {st with schema := schema2,
                          ledger := st.ledger.filter (fun r => !(r.version == version))})

/-- The loop of `apply_all_pending` (server.py:484-488): apply each pending
migration, keep every result, and break after a real (non-dry-run) failure. -/
def applyLoop (exec : String → Nat → Except String Nat) :
    List MigFile → EngineState → Bool → Nat → Nat → List OpResult × EngineState
  | [], st, _, _, _ => ([], st)
  | m :: rest, st, dry, now, t =>
      let r := apply_migration exec st m.version dry now t
      if !r.1.success && !dry then ([r.1], r.2)
      else
        let rs := applyLoop exec rest r.2 dry now t
        (r.1 :: rs.1, rs.2)

/-- The aggregate dict returned by `apply_all_pending` (server.py:490-495). -/
structure ApplyAllResult where
  total : Nat
  applied : Nat
  dry_run : Bool
  results : List OpResult
deriving DecidableEq

/-- `apply_all_pending` (server.py:471-495). -/
def apply_all_pending (exec : String → Nat → Except String Nat) (st : EngineState)
    (dry_run : Bool) (now t : Nat) : ApplyAllResult × EngineState :=
  let pending := (get_status st.fs st.ledger).pending
  let r := applyLoop exec pending st dry_run now t
  ({total := pending.length,
    applied := (r.1.filter (·.success)).length,
    dry_run := dry_run,
    results := r.1}, r.2)

/-- `rollback_last` (server.py:514-527): roll back `status["applied"][-1]`. -/
def rollback_last (exec : String → Nat → Except String Nat) (st : EngineState) :
    OpResult × EngineState :=
  let status := get_status st.fs st.ledger
  match status.applied.getLast? with
  | none => ({success := false, error := some "No migrations to rollback"}, st)
  | some last => rollback_migration exec st last.version false

/-- The dict returned by `create_migration` (engine.py:268-289). -/
structure CreateResult where
  success : Bool
  version : String
  name : String
  up_file : String
  down_file : Option String
deriving DecidableEq

/-- `f"{n:03d}"`: decimal digits, zero-padded on the left to width three. -/
def pad3 (n : Nat) : String :=
  let s := toString n
  if s.data.length < 3 then ⟨List.replicate (3 - s.data.length) '0'⟩ ++ s else s

/-- `open(path, "w").write(...)`: create or overwrite a file. -/
def writeFileFs (fs : FileSys) (fname content : String) : FileSys :=
  if fs.any (fun p => p.1 == fname) then
    fs.map (fun p => if p.1 == fname then (p.1, content) else p)
  else
    fs ++ [(fname, content)]

/-- `name.lower().replace(" ", "_").replace("-", "_")` (engine.py:255). -/
def safe_name_of (name : String) : String :=
  pyReplace (pyReplace (pyLower name) " " "_") "-" "_"

/-- The header-plus-SQL content written into a new up file (engine.py:261-266). -/
def upFileContent (version safe now_iso name up_sql : String) : String :=
  "-- Migration: " ++ version ++ "_" ++ safe ++ "\n" ++
    "-- Created: " ++ now_iso ++ "\n" ++ "-- Description: " ++ name ++ "\n\n" ++
    up_sql ++ "\n"

/-- The header-plus-SQL content written into a new down file (engine.py:281-285). -/
def downFileContent (version safe now_iso down : String) : String :=
  "-- Rollback: " ++ version ++ "_" ++ safe ++ "\n" ++
    "-- Created: " ++ now_iso ++ "\n\n" ++ down ++ "\n"

/-- The file-writing tail of `create_migration` (engine.py:254-289), after the
version number has been computed; the down file is written only when
`down_sql` is truthy (neither `None` nor empty, matching `if down_sql:`). -/
def create_files (st : EngineState) (name up_sql : String)
    (down_sql : Option String) (now_iso version : String) :
    CreateResult × EngineState :=
  let safe_name := safe_name_of name
  let up_filename := version ++ "_" ++ safe_name ++ ".up.sql"
  let fs1 := writeFileFs st.fs up_filename
    (upFileContent version safe_name now_iso name up_sql)
  if down_sql.getD "" ≠ "" then
    let down_filename := version ++ "_" ++ safe_name ++ ".down.sql"
    ({success := true, version := version, name := safe_name,
      up_file := up_filename, down_file := some down_filename},
     {st with fs := (writeFileFs fs1 down_filename
        (downFileContent version safe_name now_iso (down_sql.getD "")))})
  else
    ({success := true, version := version, name := safe_name,
      up_file := up_filename, down_file := none},
     {st with fs := fs1})

/-- `MigrationEngine.create_migration` (engine.py:242-289); `none` models the
uncaught `ValueError` when some existing version is not an integer literal.
`now_iso` stands for `datetime.now().isoformat()`. -/
def create_migration (st : EngineState) (name up_sql : String)
    (down_sql : Option String) (now_iso : String) :
    Option (CreateResult × EngineState) :=
  let existing := get_available_migrations st.fs
  let ov : Option String :=
    if existing.isEmpty then some "001"
    else (existing.mapM (fun m => pyToNat m.version)).map
      (fun vs => pad3 (vs.foldl Nat.max 0 + 1))
  ov.map (create_files st name up_sql down_sql now_iso)

/-! ## The `run_query` and `inspect_schema` tools (server.py) -/

/-- A result dict of `run_query`; the source never puts a `success` key in
these dicts, so the field stays `none` on every path. -/
structure QueryResult where
  columns : Option (List String) := none
  rows : Option (List (List String)) := none
  row_count : Option Nat := none
  message : Option String := none
  error : Option String := none
  success : Option Bool := none
deriving DecidableEq

/-- The keyword blocklist of `run_query` (server.py:585). -/
def dangerous : List String :=
  ["DROP", "DELETE", "UPDATE", "INSERT", "ALTER", "TRUNCATE", "CREATE"]

/-- The safety-block error message (server.py:591). -/
def safetyBlockMsg (kw : String) : String :=
  "Safety block: " ++ squote ++ kw ++ squote ++
    " statements not allowed. Use migrations for schema changes."

/-- `run_query` (server.py:572-613). `execQ` is the cursor: it raises
(`.error`), yields no result set (`cursor.description` is `None`), or yields
columns and rows. -/
def run_query
    (execQ : String → Except String (Option (List String × List (List String))))
    (query : String) : QueryResult :=
  let query_upper := pyUpper query
  match dangerous.find? (fun kw => strContains query_upper kw) with
  | some kw => {error := some (safetyBlockMsg kw)}
  | none =>
      match execQ query with
      | .error e => {error := some e}
      | .ok none => {message := some "Query executed, no results returned"}
      | .ok (some cr) =>
          {columns := some cr.1, rows := some cr.2, row_count := some cr.2.length}

/-- A result dict of `inspect_schema`; `info` holds the adapter's table
description, and as in the source no path ever sets a `success` key. -/
structure InspectResult (β : Type) where
  info : Option β := none
  error : Option String := none
  tables : Option (List String) := none
  table_count : Option Nat := none
  success : Option Bool := none
deriving DecidableEq

/-- `inspect_schema` (server.py:547-569). Only the single-table branch is
wrapped in `try/except`; in the list-all branch a raised driver error
(`.error` from `listTables`) propagates to the caller. -/
def inspect_schema {β : Type} (inspectTable : String → Except String β)
    (listTables : Except String (List String)) (table : String) :
    Except String (InspectResult β) :=
  if table ≠ "" then
    match inspectTable table with
    | .ok r => .ok {info := some r}
    | .error e => .ok {error := some e}
  else
    match listTables with
    | .error e => .error e
    | .ok ts => .ok {tables := some ts, table_count := some ts.length}

/-! ## Shared lemmas about discovery, the ledger and `get_status` -/

theorem contains_eq_mem (l : List String) (v : String) :
    l.contains v = true ↔ v ∈ l :=
  List.elem_iff

/-- Catalog membership: the scan produces exactly the parses of the `*.up.sql`
files of the directory. -/
theorem mem_get_available (fs : FileSys) (m : MigFile) :
    m ∈ get_available_migrations fs ↔
      ∃ p ∈ fs, pyEndsWith p.1 ".up.sql" = true ∧ m = parseMigration p.1 p.2 := by
  unfold get_available_migrations
  rw [List.mem_map]
  constructor
  · rintro ⟨p, hp, rfl⟩
    have hp' := (mem_pySorted _ _ _).mp hp
    rcases List.mem_filter.mp hp' with ⟨hmem, hup⟩
    exact ⟨p, hmem, hup, rfl⟩
  · rintro ⟨p, hmem, hup, rfl⟩
    exact ⟨p, (mem_pySorted _ _ _).mpr (List.mem_filter.mpr ⟨hmem, hup⟩), rfl⟩

theorem mem_get_applied (ledger : List LedgerRow) (r : LedgerRow) :
    r ∈ get_applied_migrations ledger ↔ r ∈ ledger :=
  mem_pySorted _ _ _

theorem get_applied_perm (ledger : List LedgerRow) :
    List.Perm (get_applied_migrations ledger) ledger :=
  pySorted_perm _ _

/-- The `applied_versions` set test of `get_status` agrees with membership in
the raw ledger. -/
theorem applied_versions_contains (ledger : List LedgerRow) (v : String) :
    ((get_applied_migrations ledger).map (·.version)).contains v = true ↔
      v ∈ ledger.map (·.version) := by
  rw [contains_eq_mem]
  exact ((get_applied_perm ledger).map (·.version)).mem_iff

/-- `get_applied_migrations` is sorted ascending by version. -/
theorem get_applied_sorted (ledger : List LedgerRow) :
    (get_applied_migrations ledger).Pairwise
      (fun a b => strLe a.version b.version = true) := by
  have := pairwise_pySorted (fun a b : LedgerRow => strLe a.version b.version)
    (fun a b c => strLe_trans a.version b.version c.version)
    (fun a b => strLe_total a.version b.version) ledger
  exact this

/-- The catalog is sorted ascending by filename. -/
theorem get_available_sorted (fs : FileSys) :
    (get_available_migrations fs).Pairwise
      (fun a b => strLe a.filename b.filename = true) := by
  unfold get_available_migrations
  rw [List.pairwise_map]
  have := pairwise_pySorted (fun a b : String × String => strLe a.1 b.1)
    (fun a b c => strLe_trans a.1 b.1 c.1)
    (fun a b => strLe_total a.1 b.1)
    (fs.filter (fun p => pyEndsWith p.1 ".up.sql"))
  exact this

/-- In a pairwise-ordered list the last element is above every member. -/
theorem pairwise_getLast {R : α → α → Prop} :
    ∀ {l : List α}, l.Pairwise R → ∀ {b}, l.getLast? = some b →
      ∀ x ∈ l, x = b ∨ R x b := by
  intro l
  induction l with
  | nil => intro _ b hb; simp at hb
  | cons a as ih =>
      intro hp b hb x hx
      rcases List.pairwise_cons.mp hp with ⟨ha, has⟩
      cases as with
      | nil =>
          simp at hb
          rcases List.mem_singleton.mp hx with rfl
          left; exact hb
      | cons a2 as2 =>
          rw [List.getLast?_cons_cons] at hb
          rcases List.mem_cons.mp hx with rfl | hx2
          · right
            have hbmem : b ∈ a2 :: as2 := List.mem_of_mem_getLast? (Option.mem_def.mpr hb)
            exact ha b hbmem
          · exact ih has hb x hx2

/-- In a list whose versions are pairwise distinct, `find?` by a member's
version returns that very member. -/
theorem find?_version_of_nodup (l : List LedgerRow)
    (hnd : (l.map (·.version)).Nodup) (r : LedgerRow) (hr : r ∈ l) :
    l.find? (fun x => x.version == r.version) = some r := by
  cases hf : l.find? (fun x => x.version == r.version) with
  | none =>
      exfalso
      have := List.find?_eq_none.mp hf r hr
      simp at this
  | some x =>
      have hx1 : x.version = r.version := by simpa using List.find?_some hf
      have hx2 : x ∈ l := List.mem_of_find?_eq_some hf
      have := List.inj_on_of_nodup_map hnd hx2 hr hx1
      rw [this]

/-- The `applied_checksums` dict of `get_status` returns the recorded checksum
of an applied version, provided versions are ledger-unique (the table's
primary key). -/
theorem appliedChecksumLookup_eq (ledger : List LedgerRow)
    (hnd : (ledger.map (·.version)).Nodup) (r : LedgerRow) (hr : r ∈ ledger) :
    appliedChecksumLookup (get_applied_migrations ledger) r.version =
      some r.checksum := by
  unfold appliedChecksumLookup
  have hperm : List.Perm (get_applied_migrations ledger).reverse ledger :=
    (List.reverse_perm _).trans (get_applied_perm ledger)
  have hnd2 : ((get_applied_migrations ledger).reverse.map (·.version)).Nodup :=
    ((hperm.map (·.version)).nodup_iff).mpr hnd
  have hr2 : r ∈ (get_applied_migrations ledger).reverse := hperm.mem_iff.mpr hr
  rw [find?_version_of_nodup _ hnd2 r hr2]
  rfl

theorem dictByVersion_eq_none (ms : List MigFile) (v : String) :
    dictByVersion ms v = none ↔ ∀ m ∈ ms, m.version ≠ v := by
  unfold dictByVersion
  rw [List.find?_eq_none]
  constructor
  · intro h m hm
    have := h m (List.mem_reverse.mpr hm)
    simpa using this
  · intro h m hm
    have := h m (List.mem_reverse.mp hm)
    simpa using this

theorem dictByVersion_some (ms : List MigFile) (v : String) (m : MigFile)
    (h : dictByVersion ms v = some m) : m ∈ ms ∧ m.version = v := by
  unfold dictByVersion at h
  exact ⟨List.mem_reverse.mp (List.mem_of_find?_eq_some h),
    by simpa using List.find?_some h⟩

theorem dictByVersion_isSome (ms : List MigFile) (v : String)
    (h : v ∈ ms.map (·.version)) : ∃ m, dictByVersion ms v = some m := by
  cases hf : dictByVersion ms v with
  | none =>
      exfalso
      rcases List.mem_map.mp h with ⟨m, hm, hv⟩
      exact (dictByVersion_eq_none ms v).mp hf m hm hv
  | some m => exact ⟨m, rfl⟩


/-- A successful non-dry apply leaves the directory unchanged and puts the
version into the ledger. -/
theorem apply_success_state (exec : String → Nat → Except String Nat)
    (st : EngineState) (v : String) (now t : Nat) (r : OpResult) (st2 : EngineState)
    (h : apply_migration exec st v false now t = (r, st2)) (hs : r.success = true) :
    st2.fs = st.fs ∧ v ∈ st2.ledger.map (·.version) := by
  cases hf : dictByVersion (get_available_migrations st.fs) v with
  | none =>
      simp only [apply_migration, hf] at h
      injection h with h1 h2
      rw [← h1] at hs
      cases hs
  | some m =>
      by_cases hc :
          ((get_applied_migrations st.ledger).map (·.version)).contains v = true
      · simp only [apply_migration, hf, hc, eq_self_iff_true, if_true] at h
        injection h with h1 h2
        rw [← h1] at hs
        cases hs
      · rw [Bool.not_eq_true] at hc
        cases he : exec ((lookupFile st.fs m.path).getD "") st.schema with
        | error e =>
            simp only [apply_migration, hf, hc, Bool.false_eq_true, if_false, he] at h
            injection h with h1 h2
            rw [← h1] at hs
            cases hs
        | ok s2 =>
            simp only [apply_migration, hf, hc, Bool.false_eq_true, if_false, he] at h
            injection h with h1 h2
            rw [← h2]
            refine ⟨rfl, ?_⟩
            simp

/-- Claim C2: with `dryRun = true`, `apply_migration` and `rollback_migration`
leave the whole engine state — in particular the ledger table and the target
schema — unchanged, whatever the outcome. -/
theorem C2_dry_run_frame (exec : String → Nat → Except String Nat)
    (st : EngineState) (version : String) (now t : Nat) :
    (apply_migration exec st version true now t).2 = st ∧
    (rollback_migration exec st version true).2 = st := by
  constructor
  · cases h : dictByVersion (get_available_migrations st.fs) version with
    | none => simp only [apply_migration, h]
    | some m =>
        by_cases hc :
            ((get_applied_migrations st.ledger).map (·.version)).contains version = true
        · simp only [apply_migration, h, hc, eq_self_iff_true, if_true]
        · rw [Bool.not_eq_true] at hc
          simp only [apply_migration, h, hc, Bool.false_eq_true, if_false,
            eq_self_iff_true, if_true]
  · cases h : dictByVersion (get_available_migrations st.fs) version with
    | none => simp only [rollback_migration, h]
    | some m =>
        by_cases hd :
            (lookupFile st.fs (pyReplace m.path ".up.sql" ".down.sql")).isNone = true
        · simp only [rollback_migration, h, hd, eq_self_iff_true, if_true]
        · rw [Bool.not_eq_true] at hd
          by_cases hc :
              ((get_applied_migrations st.ledger).map (·.version)).contains version = true
          · simp only [rollback_migration, h, hd, hc, Bool.false_eq_true, if_false,
              Bool.not_true, eq_self_iff_true, if_true]
          · rw [Bool.not_eq_true] at hc
            simp only [rollback_migration, h, hd, hc, Bool.false_eq_true, if_false,
              Bool.not_false, eq_self_iff_true, if_true]

/-- Claim C3: apply fails with the not-found error for a version absent from
the catalog and with the already-applied error for a catalog version already
in the ledger (hence the second of two applies of the same version fails);
rollback of a catalog version with a down-script that is not in the ledger
fails with the not-applied error. -/
theorem C3_apply_rollback_guards
    (exec exec2 : String → Nat → Except String Nat) (st : EngineState)
    (v1 v2 v3 v4 : String) (dry : Bool) (now t now2 t2 : Nat) :
    (v1 ∉ (get_available_migrations st.fs).map (·.version) →
      (apply_migration exec st v1 dry now t).1 =
        {success := false, error := some ("Migration " ++ v1 ++ " not found")}) ∧
    (v2 ∈ (get_available_migrations st.fs).map (·.version) →
      v2 ∈ st.ledger.map (·.version) →
      (apply_migration exec st v2 dry now t).1 =
        {success := false, error := some ("Migration " ++ v2 ++ " already applied")}) ∧
    (∀ r st2, apply_migration exec st v3 false now t = (r, st2) → r.success = true →
      (apply_migration exec2 st2 v3 dry now2 t2).1 =
        {success := false, error := some ("Migration " ++ v3 ++ " already applied")}) ∧
    (v4 ∈ (get_available_migrations st.fs).map (·.version) →
      (∀ m ∈ get_available_migrations st.fs, m.version = v4 →
        (lookupFile st.fs (pyReplace m.path ".up.sql" ".down.sql")).isSome = true) →
      v4 ∉ st.ledger.map (·.version) →
      (rollback_migration exec st v4 dry).1 =
        {success := false, error := some ("Migration " ++ v4 ++ " is not applied")}) := by
  have already : ∀ (ex : String → Nat → Except String Nat) (s : EngineState)
      (v : String) (d : Bool) (n tt : Nat),
      v ∈ (get_available_migrations s.fs).map (·.version) →
      v ∈ s.ledger.map (·.version) →
      (apply_migration ex s v d n tt).1 =
        {success := false, error := some ("Migration " ++ v ++ " already applied")} := by
    intro ex s v d n tt hv hl
    rcases dictByVersion_isSome _ _ hv with ⟨m, hf⟩
    have hc := (applied_versions_contains s.ledger v).mpr hl
    simp only [apply_migration, hf, hc, eq_self_iff_true, if_true]
  refine ⟨?_, already exec st v2 dry now t, ?_, ?_⟩
  · intro hv
    have hnone : dictByVersion (get_available_migrations st.fs) v1 = none := by
      rw [dictByVersion_eq_none]
      intro m hm hveq
      exact hv (List.mem_map.mpr ⟨m, hm, hveq⟩)
    simp only [apply_migration, hnone]
  · intro r st2 heq hs
    rcases apply_success_state exec st v3 now t r st2 heq hs with ⟨hfs, hl⟩
    have hv : v3 ∈ (get_available_migrations st2.fs).map (·.version) := by
      rw [hfs]
      cases hf : dictByVersion (get_available_migrations st.fs) v3 with
      | none =>
          exfalso
          simp only [apply_migration, hf] at heq
          injection heq with h1 h2
          rw [← h1] at hs
          cases hs
      | some m =>
          rcases dictByVersion_some _ _ _ hf with ⟨hm, hveq⟩
          exact List.mem_map.mpr ⟨m, hm, hveq⟩
    exact already exec2 st2 v3 dry now2 t2 hv hl
  · intro hv hdown hl
    rcases dictByVersion_isSome _ _ hv with ⟨m, hf⟩
    rcases dictByVersion_some _ _ _ hf with ⟨hm, hveq⟩
    have hd := hdown m hm hveq
    have hdn :
        (lookupFile st.fs (pyReplace m.path ".up.sql" ".down.sql")).isNone = false := by
      cases hl2 : lookupFile st.fs (pyReplace m.path ".up.sql" ".down.sql") with
      | none => rw [hl2] at hd; cases hd
      | some c => simp
    have hc :
        ((get_applied_migrations st.ledger).map (·.version)).contains v4 = false := by
      cases hcc : ((get_applied_migrations st.ledger).map (·.version)).contains v4 with
      | false => rfl
      | true => exact absurd ((applied_versions_contains st.ledger v4).mp hcc) hl
    simp only [rollback_migration, hf, hdn, hc, Bool.false_eq_true, if_false,
      Bool.not_false, eq_self_iff_true, if_true]

/-- Concrete engine state used by the C3 witness. -/
def stC3 : EngineState :=
  { fs := [("001_init.up.sql", "abc"), ("001_init.down.sql", "undo"),
           ("002_more.up.sql", "def"), ("003_x.up.sql", "ghi"),
           ("003_x.down.sql", "undo3")]
    ledger := [{version := "001", name := "init",
                checksum := calculate_checksum "abc", applied_at := 0,
                execution_time_ms := 1}]
    schema := 0 }

/-- Concrete adapter for the C3 witness: every script succeeds. -/
def execOk : String → Nat → Except String Nat := fun _ s => Except.ok (s + 1)

/-- Witness for C3 at the concrete state `stC3`. -/
theorem C3_witness :
    ("999" ∉ (get_available_migrations stC3.fs).map (·.version)) ∧
    ((apply_migration execOk stC3 "999" false 0 0).1 =
      {success := false, error := some ("Migration " ++ "999" ++ " not found")}) ∧
    ((apply_migration execOk stC3 "001" false 0 0).1 =
      {success := false, error := some ("Migration " ++ "001" ++ " already applied")}) ∧
    ((apply_migration execOk
        (apply_migration execOk stC3 "002" false 0 0).2 "002" false 0 0).1 =
      {success := false, error := some ("Migration " ++ "002" ++ " already applied")}) ∧
    ((rollback_migration execOk stC3 "003" false).1 =
      {success := false, error := some ("Migration " ++ "003" ++ " is not applied")}) := by
  have h := C3_apply_rollback_guards execOk execOk stC3 "999" "001" "002" "003"
    false 0 0 0 0
  exact ⟨by decide, h.1 (by decide), h.2.1 (by decide) (by decide),
    h.2.2.1 _ _ rfl (by decide),
    h.2.2.2 (by decide) (by decide) (by decide)⟩

/-- Claim C4: rollback fails with not-found for a version absent from the
catalog, with the rollback-file-missing error when the down-script is absent,
and with not-applied when the version is not in the ledger; in the missing-file
case and whenever the down-script execution raises, the engine state — in
particular the ledger row of that version — is left untouched. -/
theorem C4_rollback_errors (exec : String → Nat → Except String Nat)
    (st : EngineState) (v1 v2 v3 v4 : String) (dry : Bool) :
    (v1 ∉ (get_available_migrations st.fs).map (·.version) →
      (rollback_migration exec st v1 dry).1 =
        {success := false, error := some ("Migration " ++ v1 ++ " not found")} ∧
      (rollback_migration exec st v1 dry).2 = st) ∧
    (∀ m, dictByVersion (get_available_migrations st.fs) v2 = some m →
      lookupFile st.fs (pyReplace m.path ".up.sql" ".down.sql") = none →
      (rollback_migration exec st v2 dry).1 =
        {success := false,
         error := some ("Rollback file not found: " ++
           pyReplace m.path ".up.sql" ".down.sql")} ∧
      (rollback_migration exec st v2 dry).2 = st) ∧
    (v3 ∈ (get_available_migrations st.fs).map (·.version) →
      (∀ m ∈ get_available_migrations st.fs, m.version = v3 →
        (lookupFile st.fs (pyReplace m.path ".up.sql" ".down.sql")).isSome = true) →
      v3 ∉ st.ledger.map (·.version) →
      (rollback_migration exec st v3 dry).1 =
        {success := false, error := some ("Migration " ++ v3 ++ " is not applied")} ∧
      (rollback_migration exec st v3 dry).2 = st) ∧
    (∀ m e, dictByVersion (get_available_migrations st.fs) v4 = some m →
      (lookupFile st.fs (pyReplace m.path ".up.sql" ".down.sql")).isSome = true →
      v4 ∈ st.ledger.map (·.version) →
      exec ((lookupFile st.fs (pyReplace m.path ".up.sql" ".down.sql")).getD "")
        st.schema = Except.error e →
      (rollback_migration exec st v4 false).1 =
        {success := false, version := some v4, error := some e} ∧
      (rollback_migration exec st v4 false).2 = st) := by
  refine ⟨?_, ?_, ?_, ?_⟩
  · intro hv
    have hnone : dictByVersion (get_available_migrations st.fs) v1 = none := by
      rw [dictByVersion_eq_none]
      intro m hm hveq
      exact hv (List.mem_map.mpr ⟨m, hm, hveq⟩)
    simp only [rollback_migration, hnone]
    exact ⟨by simp, by simp⟩
  · intro m hf hd
    simp only [rollback_migration, hf, hd, Option.isNone_none, eq_self_iff_true, if_true]
    exact ⟨by simp, by simp⟩
  · intro hv hdown hl
    rcases dictByVersion_isSome _ _ hv with ⟨m, hf⟩
    rcases dictByVersion_some _ _ _ hf with ⟨hm, hveq⟩
    have hd := hdown m hm hveq
    have hdn :
        (lookupFile st.fs (pyReplace m.path ".up.sql" ".down.sql")).isNone = false := by
      cases hl2 : lookupFile st.fs (pyReplace m.path ".up.sql" ".down.sql") with
      | none => rw [hl2] at hd; cases hd
      | some c => simp
    have hc :
        ((get_applied_migrations st.ledger).map (·.version)).contains v3 = false := by
      cases hcc : ((get_applied_migrations st.ledger).map (·.version)).contains v3 with
      | false => rfl
      | true => exact absurd ((applied_versions_contains st.ledger v3).mp hcc) hl
    simp only [rollback_migration, hf, hdn, hc, Bool.false_eq_true, if_false,
      Bool.not_false, eq_self_iff_true, if_true]
    exact ⟨by simp, by simp⟩
  · intro m e hf hd hl he
    have hdn :
        (lookupFile st.fs (pyReplace m.path ".up.sql" ".down.sql")).isNone = false := by
      cases hl2 : lookupFile st.fs (pyReplace m.path ".up.sql" ".down.sql") with
      | none => rw [hl2] at hd; cases hd
      | some c => simp
    have hc := (applied_versions_contains st.ledger v4).mpr hl
    simp only [rollback_migration, hf, hdn, hc, Bool.false_eq_true, if_false,
      Bool.not_true, eq_self_iff_true, if_true, he]
    exact ⟨by simp, by simp⟩

/-- Concrete engine state used by the C4 witness. -/
def stC4 : EngineState :=
  { fs := [("001_a.up.sql", "A"), ("002_b.up.sql", "B"), ("002_b.down.sql", "DB"),
           ("003_c.up.sql", "C"), ("003_c.down.sql", "DC")]
    ledger := [{version := "003", name := "c",
                checksum := calculate_checksum "C", applied_at := 0,
                execution_time_ms := 1}]
    schema := 0 }

/-- Concrete adapter for the C4 witness: every script raises. -/
def execBoom : String → Nat → Except String Nat := fun _ _ => Except.error "boom"

/-- Witness for C4 at the concrete state `stC4`. -/
theorem C4_witness :
    ((rollback_migration execBoom stC4 "999" false).1 =
      {success := false, error := some ("Migration " ++ "999" ++ " not found")}) ∧
    ((rollback_migration execBoom stC4 "001" false).1 =
      {success := false,
       error := some ("Rollback file not found: " ++
         pyReplace (parseMigration "001_a.up.sql" "A").path ".up.sql" ".down.sql")}) ∧
    ((rollback_migration execBoom stC4 "002" false).1 =
      {success := false, error := some ("Migration " ++ "002" ++ " is not applied")}) ∧
    ((rollback_migration execBoom stC4 "003" false).1 =
      {success := false, version := some "003", error := some "boom"}) ∧
    ((rollback_migration execBoom stC4 "003" false).2 = stC4) := by
  have h := C4_rollback_errors execBoom stC4 "999" "001" "002" "003" false
  refine ⟨(h.1 (by decide)).1,
    (h.2.1 (parseMigration "001_a.up.sql" "A") (by decide) (by decide)).1,
    (h.2.2.1 (by decide) (by decide) (by decide)).1,
    (h.2.2.2 (parseMigration "003_c.up.sql" "C") "boom" (by decide) (by decide)
      (by decide) rfl).1,
    (h.2.2.2 (parseMigration "003_c.up.sql" "C") "boom" (by decide) (by decide)
      (by decide) rfl).2⟩

/-- Overwriting a file that is not an `*.up.sql` file leaves the set of files
seen by the catalog scan unchanged. -/
theorem filter_map_update (fs : FileSys) (fname cNew : String)
    (h : pyEndsWith fname ".up.sql" = false) :
    (fs.map (fun p => if p.1 == fname then (p.1, cNew) else p)).filter
        (fun p => pyEndsWith p.1 ".up.sql") =
      fs.filter (fun p => pyEndsWith p.1 ".up.sql") := by
  induction fs with
  | nil => rfl
  | cons p ps ih =>
      by_cases hp : p.1 = fname
      · simpa [List.filter_cons, hp, h] using ih
      · cases hq : pyEndsWith p.1 ".up.sql" <;>
          simpa [List.filter_cons, hp, hq] using ih

theorem filter_writeFileFs (fs : FileSys) (fname cNew : String)
    (h : pyEndsWith fname ".up.sql" = false) :
    (writeFileFs fs fname cNew).filter (fun p => pyEndsWith p.1 ".up.sql") =
      fs.filter (fun p => pyEndsWith p.1 ".up.sql") := by
  unfold writeFileFs
  split
  · exact filter_map_update fs fname cNew h
  · rw [List.filter_append]
    simp [h]

/-- Claim C5: the checksum of a migration is the first 16 hex characters of
the SHA-256 digest of the up-script content only: it is a pure function of
that content (so equal contents give equal checksums regardless of filename),
every catalog entry's checksum is the checksum of its own file's content, and
writing any non-up-script file (such as a down-script) leaves the catalog,
hence every checksum, unchanged. -/
theorem C5_checksum_content_addressed (c c2 f1 f2 fname cNew : String) (fs : FileSys) :
    (calculate_checksum c = pyTake (bytesToHex (sha256 (utf8Bytes c))) 16) ∧
    ((parseMigration f1 c2).checksum = (parseMigration f2 c2).checksum) ∧
    (∀ m ∈ get_available_migrations fs, ∃ p ∈ fs,
        m.filename = p.1 ∧ m.checksum = calculate_checksum p.2) ∧
    (pyEndsWith fname ".up.sql" = false →
      get_available_migrations (writeFileFs fs fname cNew) =
        get_available_migrations fs) := by
  refine ⟨rfl, rfl, ?_, ?_⟩
  · intro m hm
    rcases (mem_get_available fs m).mp hm with ⟨p, hp, hup, hparse⟩
    subst hparse
    exact ⟨p, hp, rfl, rfl⟩
  · intro h
    unfold get_available_migrations
    rw [filter_writeFileFs fs fname cNew h]

/-- Concrete directory used by the C5 witness. -/
def fsC5 : FileSys :=
  [("001_a.up.sql", "hello"), ("002_b.up.sql", "hello"), ("001_a.down.sql", "bye")]

/-- Witness for C5: two up-files with equal content share a checksum, each
catalog checksum comes from its own content, and editing a down-script
changes nothing in the catalog. -/
theorem C5_witness :
    (calculate_checksum "hello" =
      pyTake (bytesToHex (sha256 (utf8Bytes "hello"))) 16) ∧
    ((parseMigration "001_a.up.sql" "hello").checksum =
      (parseMigration "002_b.up.sql" "hello").checksum) ∧
    (∃ p ∈ fsC5, (parseMigration "001_a.up.sql" "hello").filename = p.1 ∧
      (parseMigration "001_a.up.sql" "hello").checksum = calculate_checksum p.2) ∧
    (get_available_migrations (writeFileFs fsC5 "001_a.down.sql" "CHANGED") =
      get_available_migrations fsC5) := by
  have h := C5_checksum_content_addressed "hello" "hello" "001_a.up.sql" "002_b.up.sql"
    "001_a.down.sql" "CHANGED" fsC5
  exact ⟨h.1, h.2.1, h.2.2.1 (parseMigration "001_a.up.sql" "hello") (by decide),
    h.2.2.2 (by decide)⟩

/-- Claim C9: `run_query` rejects — touching the database not at all — exactly
those queries whose upper-cased text contains one of the blocked keywords,
answering with the safety-block error; any other query is executed and
answered with columns, rows and row count, or with the no-results message. -/
theorem C9_run_query_guard
    (execA execB execC : String → Except String (Option (List String × List (List String))))
    (q1 q2 : String) (cols : List String) (rows : List (List String)) :
    ((∃ kw ∈ dangerous, strContains (pyUpper q1) kw = true) →
      run_query execA q1 = run_query execB q1 ∧
      ∃ kw ∈ dangerous, run_query execA q1 = {error := some (safetyBlockMsg kw)}) ∧
    ((∀ kw ∈ dangerous, strContains (pyUpper q2) kw = false) →
      (execA q2 = Except.ok (some (cols, rows)) →
        run_query execA q2 =
          {columns := some cols, rows := some rows, row_count := some rows.length}) ∧
      (execC q2 = Except.ok none →
        run_query execC q2 = {message := some "Query executed, no results returned"})) := by
  constructor
  · intro hex
    cases hf : dangerous.find? (fun kw => strContains (pyUpper q1) kw) with
    | none =>
        exfalso
        rcases hex with ⟨kw, hkw, hc⟩
        exact absurd hc (by simpa using List.find?_eq_none.mp hf kw hkw)
    | some kw0 =>
        refine ⟨by simp only [run_query, hf], ?_⟩
        exact ⟨kw0, List.mem_of_find?_eq_some hf, by simp only [run_query, hf]⟩
  · intro hall
    have hf : dangerous.find? (fun kw => strContains (pyUpper q2) kw) = none := by
      rw [List.find?_eq_none]
      intro kw hkw
      simp [hall kw hkw]
    constructor
    · intro he
      simp only [run_query, hf, he]
    · intro he
      simp only [run_query, hf, he]

/-- Witness for C9: a lower-case `drop table x` is blocked independently of
the adapter, and `SELECT 1` executes and returns one column and one row. -/
theorem C9_witness :
    (run_query (fun _ => Except.ok (some (["1"], [["1"]]))) "drop table x" =
      run_query (fun _ => Except.error "driver down") "drop table x") ∧
    (∃ kw ∈ dangerous,
      run_query (fun _ => Except.ok (some (["1"], [["1"]]))) "drop table x" =
        {error := some (safetyBlockMsg kw)}) ∧
    (run_query (fun _ => Except.ok (some (["1"], [["1"]]))) "SELECT 1" =
      {columns := some ["1"], rows := some [["1"]], row_count := some 1}) ∧
    (run_query (fun _ => Except.ok none) "SELECT 1" =
      {message := some "Query executed, no results returned"}) := by
  have h := C9_run_query_guard (fun _ => Except.ok (some (["1"], [["1"]])))
    (fun _ => Except.error "driver down") (fun _ => Except.ok none)
    "drop table x" "SELECT 1" ["1"] [["1"]]
  have h1 := h.1 ⟨"DROP", by decide, by decide⟩
  have h2 := h.2 (by decide)
  exact ⟨h1.1, h1.2, h2.1 rfl, h2.2 rfl⟩

theorem charListLe_refl : ∀ a : List Char, charListLe a a = true
  | [] => rfl
  | c :: cs => by simp [charListLe, charListLe_refl cs]

theorem strLe_refl (s : String) : strLe s s = true :=
  charListLe_refl s.data

/-- `get_status` puts a catalog entry into `pending` exactly when its version
is absent from the ledger. -/
theorem mem_status_pending (fs : FileSys) (ledger : List LedgerRow) (m : MigFile) :
    m ∈ (get_status fs ledger).pending ↔
      m ∈ get_available_migrations fs ∧ m.version ∉ ledger.map (·.version) := by
  show m ∈ (get_available_migrations fs).filter
      (fun m => !(((get_applied_migrations ledger).map (·.version)).contains m.version)) ↔ _
  rw [List.mem_filter]
  constructor
  · rintro ⟨h1, h2⟩
    refine ⟨h1, ?_⟩
    intro hmem
    rw [(applied_versions_contains ledger m.version).mpr hmem] at h2
    cases h2
  · rintro ⟨h1, h2⟩
    refine ⟨h1, ?_⟩
    cases hcc : ((get_applied_migrations ledger).map (·.version)).contains m.version with
    | false => rfl
    | true => exact absurd ((applied_versions_contains ledger m.version).mp hcc) h2

/-- `get_status` puts a catalog entry into `applied` exactly when its version
is present in the ledger. -/
theorem mem_status_applied (fs : FileSys) (ledger : List LedgerRow) (m : MigFile) :
    m ∈ (get_status fs ledger).applied ↔
      m ∈ get_available_migrations fs ∧ m.version ∈ ledger.map (·.version) := by
  show m ∈ (get_available_migrations fs).filter
      (fun m => ((get_applied_migrations ledger).map (·.version)).contains m.version) ↔ _
  rw [List.mem_filter]
  exact and_congr_right (fun _ => applied_versions_contains ledger m.version)

/-- An applied entry whose current checksum differs from the ledger checksum
contributes exactly the drift record `{version, expected, actual}`. -/
theorem drift_intro (fs : FileSys) (ledger : List LedgerRow)
    (hnd : (ledger.map (·.version)).Nodup)
    (m : MigFile) (hm : m ∈ (get_status fs ledger).applied)
    (r : LedgerRow) (hr : r ∈ ledger) (hv : r.version = m.version)
    (hne : m.checksum ≠ r.checksum) :
    (⟨m.version, r.checksum, m.checksum⟩ : DriftRecord) ∈
      (get_status fs ledger).drift_detected := by
  have hgoal : (⟨m.version, r.checksum, m.checksum⟩ : DriftRecord) ∈
      ((get_available_migrations fs).filter
        (fun m => ((get_applied_migrations ledger).map (·.version)).contains m.version)).filterMap
        (fun m => match appliedChecksumLookup (get_applied_migrations ledger) m.version with
          | some e => if m.checksum ≠ e then
              some {version := m.version, expected := e, actual := m.checksum}
            else none
          | none => none) := by
    rw [List.mem_filterMap]
    refine ⟨m, hm, ?_⟩
    have hl := appliedChecksumLookup_eq ledger hnd r hr
    rw [hv] at hl
    rw [hl]
    show (if m.checksum ≠ r.checksum then
        some ({version := m.version, expected := r.checksum, actual := m.checksum} :
          DriftRecord)
      else none) = _
    rw [if_pos hne]
  exact hgoal

/-- Every drift record comes from an applied entry and the recorded ledger
checksum for its version. -/
theorem drift_elim (fs : FileSys) (ledger : List LedgerRow) (d : DriftRecord)
    (hd : d ∈ (get_status fs ledger).drift_detected) :
    ∃ m ∈ (get_status fs ledger).applied, d.version = m.version ∧
      d.actual = m.checksum ∧
      appliedChecksumLookup (get_applied_migrations ledger) m.version =
        some d.expected ∧
      m.checksum ≠ d.expected := by
  have hd' : d ∈ ((get_available_migrations fs).filter
      (fun m => ((get_applied_migrations ledger).map (·.version)).contains m.version)).filterMap
        (fun m => match appliedChecksumLookup (get_applied_migrations ledger) m.version with
          | some e => if m.checksum ≠ e then some ⟨m.version, e, m.checksum⟩ else none
          | none => none) := hd
  rcases List.mem_filterMap.mp hd' with ⟨m, hm, heq⟩
  refine ⟨m, hm, ?_⟩
  cases hl : appliedChecksumLookup (get_applied_migrations ledger) m.version with
  | none => rw [hl] at heq; cases heq
  | some e =>
      rw [hl] at heq
      have heq2 : (if m.checksum ≠ e then
          some ({version := m.version, expected := e, actual := m.checksum} :
            DriftRecord)
        else none) = some d := heq
      by_cases hne : m.checksum ≠ e
      · rw [if_pos hne] at heq2
        injection heq2 with heq3
        rw [← heq3]
        exact ⟨rfl, rfl, rfl, hne⟩
      · rw [if_neg hne] at heq2
        cases heq2

/-- Editing an existing file replaces its content in the directory model. -/
theorem mem_writeFileFs_self (fs : FileSys) (fname c cNew : String)
    (h : (fname, c) ∈ fs) : (fname, cNew) ∈ writeFileFs fs fname cNew := by
  unfold writeFileFs
  split
  · refine List.mem_map.mpr ⟨(fname, c), h, ?_⟩
    show (if ((fname, c).1 == fname) = true then ((fname, c).1, cNew)
      else (fname, c)) = (fname, cNew)
    rw [if_pos (by exact beq_self_eq_true fname)]
  · exact absurd (List.any_eq_true.mpr ⟨(fname, c), h, beq_self_eq_true fname⟩)
      (by assumption)

/-- Claim C1: `get_status` partitions the catalog into pending/applied by
ledger membership; every applied entry whose current checksum differs from the
ledger's recorded checksum yields the drift record
`{version, expected = ledger checksum, actual = catalog checksum}`;
`current_version` is the version of the last ledger row in ascending version
order (`none` exactly when the ledger is empty, and otherwise a ledger version
above all others); and editing the up-script of an applied migration to
content with a different checksum introduces a drift record for that version
while the unedited directory carries none (so reverting the edit clears it). -/
theorem C1_status_partition_drift (fs : FileSys) (ledger : List LedgerRow) :
    (∀ m, m ∈ (get_status fs ledger).pending ↔
      m ∈ get_available_migrations fs ∧ m.version ∉ ledger.map (·.version)) ∧
    (∀ m, m ∈ (get_status fs ledger).applied ↔
      m ∈ get_available_migrations fs ∧ m.version ∈ ledger.map (·.version)) ∧
    (∀ m ∈ get_available_migrations fs,
      (m ∈ (get_status fs ledger).pending ∧ m ∉ (get_status fs ledger).applied) ∨
      (m ∈ (get_status fs ledger).applied ∧ m ∉ (get_status fs ledger).pending)) ∧
    ((ledger.map (·.version)).Nodup →
      ∀ m ∈ (get_status fs ledger).applied, ∀ r ∈ ledger, r.version = m.version →
        m.checksum ≠ r.checksum →
        (⟨m.version, r.checksum, m.checksum⟩ : DriftRecord) ∈
          (get_status fs ledger).drift_detected) ∧
    ((get_status fs ledger).current_version =
      ((get_applied_migrations ledger).getLast?).map (·.version)) ∧
    ((get_status fs ledger).current_version = none ↔ ledger = []) ∧
    (∀ v, (get_status fs ledger).current_version = some v →
      ∃ r ∈ ledger, r.version = v ∧ ∀ r2 ∈ ledger, strLe r2.version v = true) ∧
    (∀ fname c cNew row,
      (ledger.map (·.version)).Nodup →
      ((get_available_migrations fs).map (·.version)).Nodup →
      (fname, c) ∈ fs →
      pyEndsWith fname ".up.sql" = true →
      row ∈ ledger →
      row.version = (parseMigration fname c).version →
      row.checksum = calculate_checksum c →
      calculate_checksum cNew ≠ calculate_checksum c →
      ((⟨(parseMigration fname c).version, row.checksum,
          calculate_checksum cNew⟩ : DriftRecord) ∈
        (get_status (writeFileFs fs fname cNew) ledger).drift_detected) ∧
      (∀ d ∈ (get_status fs ledger).drift_detected,
        d.version ≠ (parseMigration fname c).version)) := by
  refine ⟨mem_status_pending fs ledger, mem_status_applied fs ledger, ?_, ?_, rfl, ?_, ?_, ?_⟩
  · intro m hm
    by_cases hv : m.version ∈ ledger.map (·.version)
    · right
      refine ⟨(mem_status_applied fs ledger m).mpr ⟨hm, hv⟩, ?_⟩
      intro hp
      exact absurd hv ((mem_status_pending fs ledger m).mp hp).2
    · left
      refine ⟨(mem_status_pending fs ledger m).mpr ⟨hm, hv⟩, ?_⟩
      intro hp
      exact absurd ((mem_status_applied fs ledger m).mp hp).2 hv
  · intro hnd m hm r hr hv hne
    exact drift_intro fs ledger hnd m hm r hr hv hne
  · constructor
    · intro h
      have h2 : (get_applied_migrations ledger).getLast? = none := by
        cases hg : (get_applied_migrations ledger).getLast? with
        | none => rfl
        | some b =>
            have : (get_status fs ledger).current_version = some b.version := by
              show ((get_applied_migrations ledger).getLast?).map (·.version) = _
              rw [hg]; rfl
            rw [h] at this; cases this
      have h3 : get_applied_migrations ledger = [] := List.getLast?_eq_none_iff.mp h2
      have hp := get_applied_perm ledger
      rw [h3] at hp
      exact hp.symm.eq_nil
    · intro h
      subst h
      rfl
  · intro v hv
    cases hg : (get_applied_migrations ledger).getLast? with
    | none =>
        exfalso
        have : (get_status fs ledger).current_version = none := by
          show ((get_applied_migrations ledger).getLast?).map (·.version) = _
          rw [hg]; rfl
        rw [hv] at this; cases this
    | some b =>
        have hbv : b.version = v := by
          have : (get_status fs ledger).current_version = some b.version := by
            show ((get_applied_migrations ledger).getLast?).map (·.version) = _
            rw [hg]; rfl
          rw [hv] at this
          injection this with h6
          exact h6.symm
        refine ⟨b, (mem_get_applied ledger b).mp
          (List.mem_of_mem_getLast? (Option.mem_def.mpr hg)), hbv, ?_⟩
        intro r2 hr2
        have hr2s : r2 ∈ get_applied_migrations ledger :=
          (mem_get_applied ledger r2).mpr hr2
        rcases pairwise_getLast (get_applied_sorted ledger) hg r2 hr2s with h | h
        · rw [h, hbv]; exact strLe_refl v
        · rw [← hbv]; exact h
  · intro fname c cNew row hndL hndA hmem hup hrow hv hck hdiff
    constructor
    · have hm2 : (fname, cNew) ∈ writeFileFs fs fname cNew :=
        mem_writeFileFs_self fs fname c cNew hmem
      have havail : parseMigration fname cNew ∈
          get_available_migrations (writeFileFs fs fname cNew) :=
        (mem_get_available _ _).mpr ⟨(fname, cNew), hm2, hup, rfl⟩
      have happ : parseMigration fname cNew ∈
          (get_status (writeFileFs fs fname cNew) ledger).applied := by
        refine (mem_status_applied _ ledger _).mpr ⟨havail, ?_⟩
        exact List.mem_map.mpr ⟨row, hrow, hv⟩
      have hrec := drift_intro (writeFileFs fs fname cNew) ledger hndL
        (parseMigration fname cNew) happ row hrow hv
        (by
          show calculate_checksum cNew ≠ row.checksum
          rw [hck]; exact hdiff)
      exact hrec
    · intro d hd hdv
      rcases drift_elim fs ledger d hd with ⟨m, hm, hdver, hdact, hlook, hne⟩
      have hmavail := ((mem_status_applied fs ledger m).mp hm).1
      have hm0 : parseMigration fname c ∈ get_available_migrations fs :=
        (mem_get_available _ _).mpr ⟨(fname, c), hmem, hup, rfl⟩
      have hveq : m.version = (parseMigration fname c).version := by
        rw [← hdver, hdv]
      have hmeq : m = parseMigration fname c :=
        List.inj_on_of_nodup_map hndA hmavail hm0 hveq
      have hlook2 : appliedChecksumLookup (get_applied_migrations ledger)
          m.version = some row.checksum := by
        have := appliedChecksumLookup_eq ledger hndL row hrow
        rw [hv] at this
        rw [hveq]
        exact this
      rw [hlook] at hlook2
      injection hlook2 with hexp
      apply hne
      rw [hmeq, hexp, hck]
      rfl

/-- Concrete ledger row used by the C1 witness. -/
def rowC1 : LedgerRow :=
  {version := "001", name := "init", checksum := calculate_checksum "abc",
   applied_at := 0, execution_time_ms := 1}

/-- Concrete directory used by the C1 witness. -/
def fsC1 : FileSys := [("001_init.up.sql", "abc"), ("002_more.up.sql", "def")]

/-- The C1 witness directory after editing the applied up-script. -/
def fsC1e : FileSys := [("001_init.up.sql", "XYZ"), ("002_more.up.sql", "def")]

/-- Witness for C1 at a concrete directory and one-row ledger. -/
theorem C1_witness :
    (parseMigration "002_more.up.sql" "def" ∈ (get_status fsC1 [rowC1]).pending) ∧
    (parseMigration "001_init.up.sql" "abc" ∈ (get_status fsC1 [rowC1]).applied) ∧
    ((⟨(parseMigration "001_init.up.sql" "XYZ").version, calculate_checksum "abc",
        calculate_checksum "XYZ"⟩ : DriftRecord) ∈
      (get_status fsC1e [rowC1]).drift_detected) ∧
    (∃ r ∈ [rowC1], r.version = "001" ∧
      ∀ r2 ∈ [rowC1], strLe r2.version "001" = true) ∧
    ((⟨(parseMigration "001_init.up.sql" "abc").version, calculate_checksum "abc",
        calculate_checksum "XYZ"⟩ : DriftRecord) ∈
      (get_status (writeFileFs fsC1 "001_init.up.sql" "XYZ") [rowC1]).drift_detected) ∧
    (∀ d ∈ (get_status fsC1 [rowC1]).drift_detected,
      d.version ≠ (parseMigration "001_init.up.sql" "abc").version) := by
  have h1 := C1_status_partition_drift fsC1 [rowC1]
  have h2 := C1_status_partition_drift fsC1e [rowC1]
  have h8 := h1.2.2.2.2.2.2.2 "001_init.up.sql" "abc" "XYZ" rowC1
    (by decide) (by decide) (by decide) (by decide) (by decide) (by decide)
    (by decide) (by decide)
  refine ⟨(h1.1 _).mpr ⟨by decide, by decide⟩,
    (h1.2.1 _).mpr ⟨by decide, by decide⟩,
    ?_, h1.2.2.2.2.2.2.1 "001" (by decide), h8.1, h8.2⟩
  exact h2.2.2.2.1 (by decide) (parseMigration "001_init.up.sql" "XYZ") (by decide)
    rowC1 (by decide) (by decide) (by decide)

/-- Concrete state for C10: the ledger also holds version `"002"` which has no
file on disk, while `"001"` is applied and file-backed. -/
def stC10 : EngineState :=
  { fs := [("001_a.up.sql", "A"), ("001_a.down.sql", "DA")]
    ledger := [{version := "001", name := "a", checksum := calculate_checksum "A",
                applied_at := 0, execution_time_ms := 1},
               {version := "002", name := "ghost", checksum := "dead",
                applied_at := 0, execution_time_ms := 1}]
    schema := 0 }

/-- Claim C10: every entry of `pending`/`applied` and every drift record is
drawn from the filesystem catalog, so a ledger version with no `*.up.sql` file
appears in none of them, although `current_version` is computed from the full
ledger (independently of the catalog) and may equal that orphan version;
`rollback_last` answers the no-migrations error on an empty applied list and
otherwise rolls back the last entry of the applied list — a file-backed entry
whose filename bounds all applied filenames — which at `stC10` is version
`"001"` even though the ledger's current version is `"002"`. -/
theorem C10_status_catalog_only (exec : String → Nat → Except String Nat)
    (fs fs2 : FileSys) (ledger : List LedgerRow) (st : EngineState) (v : String) :
    (∀ m ∈ (get_status fs ledger).pending, m ∈ get_available_migrations fs) ∧
    (∀ m ∈ (get_status fs ledger).applied, m ∈ get_available_migrations fs) ∧
    (∀ d ∈ (get_status fs ledger).drift_detected,
      ∃ m ∈ get_available_migrations fs, d.version = m.version) ∧
    (v ∈ ledger.map (·.version) →
      (∀ m ∈ get_available_migrations fs, m.version ≠ v) →
      (∀ m ∈ (get_status fs ledger).pending, m.version ≠ v) ∧
      (∀ m ∈ (get_status fs ledger).applied, m.version ≠ v) ∧
      (∀ d ∈ (get_status fs ledger).drift_detected, d.version ≠ v)) ∧
    ((get_status fs ledger).current_version =
      (get_status fs2 ledger).current_version) ∧
    ((get_status st.fs st.ledger).applied = [] →
      rollback_last exec st =
        ({success := false, error := some "No migrations to rollback"}, st)) ∧
    (∀ last, (get_status st.fs st.ledger).applied.getLast? = some last →
      rollback_last exec st = rollback_migration exec st last.version false ∧
      last ∈ get_available_migrations st.fs ∧
      (∀ m ∈ (get_status st.fs st.ledger).applied,
        strLe m.filename last.filename = true)) ∧
    ((get_status stC10.fs stC10.ledger).current_version = some "002" ∧
      (rollback_last execOk stC10).1.version = some "001") := by
  have happlied : ∀ (fsx : FileSys) (lx : List LedgerRow),
      ∀ m ∈ (get_status fsx lx).applied, m ∈ get_available_migrations fsx :=
    fun fsx lx m hm => ((mem_status_applied fsx lx m).mp hm).1
  refine ⟨?_, happlied fs ledger, ?_, ?_, rfl, ?_, ?_, by decide, by decide⟩
  · intro m hm
    exact ((mem_status_pending fs ledger m).mp hm).1
  · intro d hd
    rcases drift_elim fs ledger d hd with ⟨m, hm, hdver, _, _, _⟩
    exact ⟨m, happlied fs ledger m hm, hdver⟩
  · intro hv hno
    refine ⟨?_, ?_, ?_⟩
    · intro m hm hveq
      exact hno m ((mem_status_pending fs ledger m).mp hm).1 hveq
    · intro m hm hveq
      exact hno m (happlied fs ledger m hm) hveq
    · intro d hd hveq
      rcases drift_elim fs ledger d hd with ⟨m, hm, hdver, _, _, _⟩
      exact hno m (happlied fs ledger m hm) (hdver ▸ hveq)
  · intro hemp
    have hnone : (get_status st.fs st.ledger).applied.getLast? = none :=
      List.getLast?_eq_none_iff.mpr hemp
    simp only [rollback_last, hnone]
  · intro last hlast
    refine ⟨by simp only [rollback_last, hlast], ?_, ?_⟩
    · exact happlied st.fs st.ledger last
        (List.mem_of_mem_getLast? (Option.mem_def.mpr hlast))
    · intro m hm
      have hpair : (get_status st.fs st.ledger).applied.Pairwise
          (fun a b => strLe a.filename b.filename = true) := by
        have := (get_available_sorted st.fs).filter
          (fun m => ((get_applied_migrations st.ledger).map (·.version)).contains m.version)
        exact this
      rcases pairwise_getLast hpair hlast m hm with h | h
      · rw [h]; exact strLe_refl _
      · exact h

/-- Witness for C10: at `stC10` the orphaned ledger version `"002"` is in no
status list although it is the current version, the empty state answers the
no-migrations error, and `rollback_last` targets the file-backed `"001"`. -/
theorem C10_witness :
    ((∀ m ∈ (get_status stC10.fs stC10.ledger).pending, m.version ≠ "002") ∧
     (∀ m ∈ (get_status stC10.fs stC10.ledger).applied, m.version ≠ "002") ∧
     (∀ d ∈ (get_status stC10.fs stC10.ledger).drift_detected, d.version ≠ "002")) ∧
    (rollback_last execOk ⟨[], [], 0⟩ =
      ({success := false, error := some "No migrations to rollback"}, ⟨[], [], 0⟩)) ∧
    (rollback_last execOk stC10 =
      rollback_migration execOk stC10 (parseMigration "001_a.up.sql" "A").version false) ∧
    (parseMigration "001_a.up.sql" "A" ∈ get_available_migrations stC10.fs) ∧
    ((get_status stC10.fs stC10.ledger).current_version = some "002" ∧
      (rollback_last execOk stC10).1.version = some "001") := by
  have h := C10_status_catalog_only execOk stC10.fs [] stC10.ledger stC10 "002"
  have h6 := C10_status_catalog_only execOk [] [] [] ⟨[], [], 0⟩ "002"
  have h7 := h.2.2.2.2.2.2.1 (parseMigration "001_a.up.sql" "A") (by decide)
  exact ⟨h.2.2.2.1 (by decide) (by decide), h6.2.2.2.2.2.1 (by decide),
    h7.1, h7.2.1, h.2.2.2.2.2.2.2⟩

/-! ## Lemmas for `apply_all_pending` (C7) -/

theorem applyLoop_cons (exec : String → Nat → Except String Nat) (m : MigFile)
    (rest : List MigFile) (st : EngineState) (dry : Bool) (now t : Nat) :
    applyLoop exec (m :: rest) st dry now t =
      if (!(apply_migration exec st m.version dry now t).1.success && !dry) = true
      then ([(apply_migration exec st m.version dry now t).1],
            (apply_migration exec st m.version dry now t).2)
      else ((apply_migration exec st m.version dry now t).1 ::
              (applyLoop exec rest
                (apply_migration exec st m.version dry now t).2 dry now t).1,
            (applyLoop exec rest
              (apply_migration exec st m.version dry now t).2 dry now t).2) := rfl

theorem applyLoop_length_le (exec : String → Nat → Except String Nat) :
    ∀ (ms : List MigFile) (st : EngineState) (dry : Bool) (now t : Nat),
      ((applyLoop exec ms st dry now t).1).length ≤ ms.length := by
  intro ms
  induction ms with
  | nil => intro st dry now t; simp [applyLoop]
  | cons m rest ih =>
      intro st dry now t
      rw [applyLoop_cons]
      by_cases hc : (!(apply_migration exec st m.version dry now t).1.success
          && !dry) = true
      · rw [if_pos hc]
        simp
      · rw [if_neg hc]
        simpa using ih (apply_migration exec st m.version dry now t).2 dry now t

theorem applyLoop_length_dry (exec : String → Nat → Except String Nat) :
    ∀ (ms : List MigFile) (st : EngineState) (now t : Nat),
      ((applyLoop exec ms st true now t).1).length = ms.length := by
  intro ms
  induction ms with
  | nil => intro st now t; rfl
  | cons m rest ih =>
      intro st now t
      rw [applyLoop_cons, if_neg (by simp)]
      simpa using ih (apply_migration exec st m.version true now t).2 now t

theorem applyLoop_prefix_success (exec : String → Nat → Except String Nat) :
    ∀ (ms : List MigFile) (st : EngineState) (now t : Nat),
      ∀ r ∈ ((applyLoop exec ms st false now t).1).dropLast, r.success = true := by
  intro ms
  induction ms with
  | nil => intro st now t r hr; simp [applyLoop] at hr
  | cons m rest ih =>
      intro st now t r hr
      rw [applyLoop_cons] at hr
      by_cases hc : (!(apply_migration exec st m.version false now t).1.success
          && !false) = true
      · rw [if_pos hc] at hr
        simp at hr
      · rw [if_neg hc] at hr
        have hs : (apply_migration exec st m.version false now t).1.success = true := by
          cases hsx : (apply_migration exec st m.version false now t).1.success with
          | false => exact absurd (by simp [hsx]) hc
          | true => rfl
        cases hl : (applyLoop exec rest
            (apply_migration exec st m.version false now t).2 false now t).1 with
        | nil =>
            rw [hl] at hr
            simp at hr
        | cons r2 rs2 =>
            rw [hl] at hr
            rw [List.dropLast_cons₂] at hr
            rcases List.mem_cons.mp hr with rfl | hr2
            · exact hs
            · have := ih (apply_migration exec st m.version false now t).2 now t r
              rw [hl] at this
              exact this hr2

theorem applyLoop_stop (exec : String → Nat → Except String Nat) :
    ∀ (ms : List MigFile) (st : EngineState) (now t : Nat),
      ((applyLoop exec ms st false now t).1).length < ms.length →
      ∃ lst, ((applyLoop exec ms st false now t).1).getLast? = some lst ∧
        lst.success = false := by
  intro ms
  induction ms with
  | nil => intro st now t h; simp [applyLoop] at h
  | cons m rest ih =>
      intro st now t h
      rw [applyLoop_cons] at h ⊢
      by_cases hc : (!(apply_migration exec st m.version false now t).1.success
          && !false) = true
      · rw [if_pos hc]
        refine ⟨(apply_migration exec st m.version false now t).1, rfl, ?_⟩
        simpa using hc
      · rw [if_neg hc] at h ⊢
        have hlen : ((applyLoop exec rest
            (apply_migration exec st m.version false now t).2 false now t).1).length
            < rest.length := by
          simpa using h
        rcases ih (apply_migration exec st m.version false now t).2 now t hlen with
          ⟨lst, hgl, hfl⟩
        refine ⟨lst, ?_, hfl⟩
        cases hl : (applyLoop exec rest
            (apply_migration exec st m.version false now t).2 false now t).1 with
        | nil => rw [hl] at hgl; simp at hgl
        | cons r2 rs2 =>
            rw [hl] at hgl
            show ((apply_migration exec st m.version false now t).1 ::
              r2 :: rs2).getLast? = some lst
            rw [List.getLast?_cons_cons]
            exact hgl

/-- Lexicographic comparison of equal-length keys is decided before any
appended tail. -/
theorem charListLe_append_of_length_eq :
    ∀ (v1 v2 t1 t2 : List Char), v1.length = v2.length →
      charListLe (v1 ++ t1) (v2 ++ t2) = true → charListLe v1 v2 = true := by
  intro v1
  induction v1 with
  | nil =>
      intro v2 t1 t2 hlen _
      cases v2 with
      | nil => rfl
      | cons y ys => simp at hlen
  | cons x xs ih =>
      intro v2 t1 t2 hlen happ
      cases v2 with
      | nil => simp at hlen
      | cons y ys =>
          simp only [List.cons_append] at happ
          by_cases hxy : x = y
          · subst hxy
            simp only [charListLe, if_pos rfl] at happ ⊢
            exact ih ys t1 t2 (by simpa using hlen) happ
          · simp only [charListLe, if_neg hxy] at happ ⊢
            exact happ

/-- Claim C7 (amended): `apply_all_pending` iterates the pending list (sorted
ascending by version under the fixed-width digit version convention), keeps
every result, reports `total` = the number of pending migrations and
`applied` = the number of successful results; without dry run every result
except possibly the last is a success and an early stop ends in a failed
result; under dry run no failure stops the iteration. -/
theorem C7_apply_all_pending (exec : String → Nat → Except String Nat)
    (st : EngineState) (dry : Bool) (now t : Nat) :
    ((apply_all_pending exec st dry now t).1.total =
      (get_status st.fs st.ledger).pending.length) ∧
    ((apply_all_pending exec st dry now t).1.applied =
      ((apply_all_pending exec st dry now t).1.results.filter (·.success)).length) ∧
    ((apply_all_pending exec st dry now t).1.dry_run = dry) ∧
    ((apply_all_pending exec st dry now t).1.results.length ≤
      (get_status st.fs st.ledger).pending.length) ∧
    ((apply_all_pending exec st true now t).1.results.length =
      (get_status st.fs st.ledger).pending.length) ∧
    ((∀ r ∈ (apply_all_pending exec st false now t).1.results.dropLast,
        r.success = true) ∧
      ((apply_all_pending exec st false now t).1.results.length <
          (get_status st.fs st.ledger).pending.length →
        ∃ lst, (apply_all_pending exec st false now t).1.results.getLast? =
            some lst ∧ lst.success = false)) ∧
    ((∀ m ∈ get_available_migrations st.fs,
        ∃ rest, m.filename.data = m.version.data ++ rest) →
      (∀ m1 ∈ get_available_migrations st.fs, ∀ m2 ∈ get_available_migrations st.fs,
        m1.version.data.length = m2.version.data.length) →
      (get_status st.fs st.ledger).pending.Pairwise
        (fun m1 m2 => strLe m1.version m2.version = true)) := by
  refine ⟨rfl, rfl, rfl,
    applyLoop_length_le exec ((get_status st.fs st.ledger).pending) st dry now t,
    applyLoop_length_dry exec ((get_status st.fs st.ledger).pending) st now t,
    ⟨applyLoop_prefix_success exec ((get_status st.fs st.ledger).pending) st now t,
     applyLoop_stop exec ((get_status st.fs st.ledger).pending) st now t⟩, ?_⟩
  intro hpre hlen
  have hP : (get_status st.fs st.ledger).pending.Pairwise
      (fun a b => strLe a.filename b.filename = true) :=
    (get_available_sorted st.fs).filter _
  refine List.Pairwise.imp_of_mem ?_ hP
  intro a b ha hb hr
  have hav : ∀ x, x ∈ (get_status st.fs st.ledger).pending →
      x ∈ get_available_migrations st.fs :=
    fun x hx => ((mem_status_pending st.fs st.ledger x).mp hx).1
  rcases hpre a (hav a ha) with ⟨ra, hra⟩
  rcases hpre b (hav b hb) with ⟨rb, hrb⟩
  have hl := hlen a (hav a ha) b (hav b hb)
  have hr2 : charListLe (a.version.data ++ ra) (b.version.data ++ rb) = true := by
    rw [← hra, ← hrb]
    exact hr
  exact charListLe_append_of_length_eq a.version.data b.version.data ra rb hl hr2

/-- Concrete state for the C7 counterexample and witness: two pending
migrations and no ledger rows. -/
def stC7 : EngineState :=
  { fs := [("001_a.up.sql", "A"), ("002_b.up.sql", "B")], ledger := [], schema := 0 }

/-- Counterexample to C7 as stated: when the first apply fails (adapter
raises), only one migration is attempted but the returned `total` is the
number of *pending* migrations (2), so the result does not carry a count of
attempted migrations. -/
theorem C7_counterexample :
    ((apply_all_pending execBoom stC7 false 0 0).1.results.length = 1) ∧
    ((apply_all_pending execBoom stC7 false 0 0).1.total = 2) ∧
    ¬ ((apply_all_pending execBoom stC7 false 0 0).1.total =
       (apply_all_pending execBoom stC7 false 0 0).1.results.length) := by
  decide

/-- Witness for the amended C7 at `stC7`. -/
theorem C7_witness :
    ((apply_all_pending execBoom stC7 false 0 0).1.total =
      (get_status stC7.fs stC7.ledger).pending.length) ∧
    ((apply_all_pending execBoom stC7 true 0 0).1.results.length =
      (get_status stC7.fs stC7.ledger).pending.length) ∧
    (∀ r ∈ (apply_all_pending execBoom stC7 false 0 0).1.results.dropLast,
      r.success = true) ∧
    (∃ lst, (apply_all_pending execBoom stC7 false 0 0).1.results.getLast? =
      some lst ∧ lst.success = false) ∧
    ((get_status stC7.fs stC7.ledger).pending.Pairwise
      (fun m1 m2 => strLe m1.version m2.version = true)) := by
  have h := C7_apply_all_pending execBoom stC7 false 0 0
  refine ⟨h.1, h.2.2.2.2.1, h.2.2.2.2.2.1.1, h.2.2.2.2.2.1.2 (by decide), ?_⟩
  refine h.2.2.2.2.2.2 ?_ (by decide)
  intro m hm
  have he : get_available_migrations stC7.fs =
      [parseMigration "001_a.up.sql" "A", parseMigration "002_b.up.sql" "B"] := by
    decide
  rw [he] at hm
  cases hm with
  | head => exact ⟨"_a.up.sql".data, by decide⟩
  | tail _ hm2 =>
      cases hm2 with
      | head => exact ⟨"_b.up.sql".data, by decide⟩
      | tail _ hm3 => cases hm3

theorem find?_map_update (fs : FileSys) (f c : String)
    (h : fs.any (fun p => p.1 == f) = true) :
    (fs.map (fun p => if p.1 == f then (p.1, c) else p)).find?
      (fun p => p.1 == f) = some (f, c) := by
  induction fs with
  | nil => cases h
  | cons p ps ih =>
      by_cases hp : (p.1 == f) = true
      · have hp1 : p.1 = f := by simpa using hp
        rw [List.map_cons, if_pos hp, List.find?_cons_of_pos _ (by simpa using hp)]
        rw [hp1]
      · have hps : ps.any (fun p => p.1 == f) = true := by
          rcases List.any_eq_true.mp h with ⟨x, hx, hxf⟩
          rcases List.mem_cons.mp hx with rfl | hx2
          · exact absurd hxf hp
          · exact List.any_eq_true.mpr ⟨x, hx2, hxf⟩
        rw [List.map_cons, if_neg hp, List.find?_cons_of_neg _ (by simpa using hp)]
        exact ih hps

/-- Writing a file makes its content readable under its name. -/
theorem lookupFile_writeFileFs (fs : FileSys) (f c : String) :
    lookupFile (writeFileFs fs f c) f = some c := by
  unfold writeFileFs
  split
  · unfold lookupFile
    rw [find?_map_update fs f c (by assumption)]
    rfl
  · unfold lookupFile
    induction fs with
    | nil => simp [List.find?]
    | cons p ps ih =>
        have hp : (p.1 == f) = false := by
          cases hx : (p.1 == f) with
          | false => rfl
          | true =>
              exact absurd (List.any_eq_true.mpr ⟨p, List.mem_cons_self p ps, hx⟩)
                (by assumption)
        have hps : ¬ (ps.any (fun p => p.1 == f) = true) := by
          intro hh
          rcases List.any_eq_true.mp hh with ⟨x, hx, hxf⟩
          exact absurd (List.any_eq_true.mpr ⟨x, List.mem_cons_of_mem p hx, hxf⟩)
            (by assumption)
        rw [List.cons_append, List.find?_cons, hp]
        exact ih hps

theorem find?_map_update_ne (fs : FileSys) (f c g : String)
    (hgf : ∀ x : String × String, (x.1 == g) = true → (x.1 == f) = false) :
    (fs.map (fun p => if p.1 == f then (p.1, c) else p)).find? (fun p => p.1 == g) =
      fs.find? (fun p => p.1 == g) := by
  induction fs with
  | nil => rfl
  | cons p ps ih =>
      rw [List.map_cons]
      by_cases hpf : (p.1 == f) = true
      · have hpg : (p.1 == g) = false := by
          cases hx : (p.1 == g) with
          | false => rfl
          | true => rw [hgf p hx] at hpf; cases hpf
        rw [if_pos hpf, List.find?_cons, List.find?_cons,
          show ((p.1, c).1 == g : Bool) = false from hpg]
        exact ih
      · have hpf0 : (p.1 == f) = false := by
          cases hx : (p.1 == f) with
          | false => rfl
          | true => exact absurd hx hpf
        rw [if_neg hpf, List.find?_cons, List.find?_cons]
        cases hpg : (p.1 == g) with
        | true => rfl
        | false => exact ih

/-- Writing a file leaves every other name's content unchanged. -/
theorem lookupFile_writeFileFs_ne (fs : FileSys) (f c g : String) (h : ¬ g = f) :
    lookupFile (writeFileFs fs f c) g = lookupFile fs g := by
  have hgf : ∀ x : String × String, (x.1 == g) = true → (x.1 == f) = false := by
    intro x hxg
    cases hxf : (x.1 == f) with
    | false => rfl
    | true =>
        exfalso
        apply h
        have h1 : x.1 = g := by simpa using hxg
        have h2 : x.1 = f := by simpa using hxf
        rw [← h1, h2]
  unfold writeFileFs
  split
  · unfold lookupFile
    rw [find?_map_update_ne fs f c g hgf]
  · unfold lookupFile
    rw [List.find?_append]
    have hone : List.find? (fun p => p.1 == g) [(f, c)] = none := by
      have hfg : ((f, c).1 == g) = false := by
        cases hx : ((f, c).1 == g) with
        | false => rfl
        | true =>
            exfalso
            apply h
            exact (by simpa using hx : f = g).symm
      rw [List.find?_cons, hfg]
      rfl
    rw [hone]
    cases List.find? (fun p => p.1 == g) fs <;> rfl

theorem foldl_max_le_init : ∀ (vs : List Nat) (a : Nat), a ≤ vs.foldl Nat.max a
  | [], a => Nat.le_refl a
  | v :: vs, a => Nat.le_trans (Nat.le_max_left a v) (foldl_max_le_init vs (Nat.max a v))

theorem mem_le_foldl_max :
    ∀ (vs : List Nat) (a w : Nat), w ∈ vs → w ≤ vs.foldl Nat.max a := by
  intro vs
  induction vs with
  | nil => intro a w hw; cases hw
  | cons v vs ih =>
      intro a w hw
      rcases List.mem_cons.mp hw with rfl | hw2
      · exact Nat.le_trans (Nat.le_max_right a w) (foldl_max_le_init vs (Nat.max a w))
      · exact ih (Nat.max a v) w hw2

/-- The generated up and down filenames differ. -/
theorem up_ne_down (a : String) : ¬ (a ++ ".down.sql" = a ++ ".up.sql") := by
  intro hx
  have hlen := congrArg (fun s => s.data.length) hx
  simp only [String.data_append, List.length_append] at hlen
  have h1 : (".down.sql" : String).data.length = 9 := by decide
  have h2 : (".up.sql" : String).data.length = 7 := by decide
  rw [h1, h2] at hlen
  omega

/-- Everything `create_files` guarantees about its result and the new state. -/
theorem create_files_spec (st : EngineState) (name up_sql : String)
    (down_sql : Option String) (now_iso version : String) :
    (create_files st name up_sql down_sql now_iso version).1.success = true ∧
    (create_files st name up_sql down_sql now_iso version).1.version = version ∧
    (create_files st name up_sql down_sql now_iso version).1.name =
      safe_name_of name ∧
    (create_files st name up_sql down_sql now_iso version).1.up_file =
      version ++ "_" ++ safe_name_of name ++ ".up.sql" ∧
    (lookupFile (create_files st name up_sql down_sql now_iso version).2.fs
      (version ++ "_" ++ safe_name_of name ++ ".up.sql")).isSome = true ∧
    (down_sql.getD "" ≠ "" →
      (create_files st name up_sql down_sql now_iso version).1.down_file =
        some (version ++ "_" ++ safe_name_of name ++ ".down.sql") ∧
      (lookupFile (create_files st name up_sql down_sql now_iso version).2.fs
        (version ++ "_" ++ safe_name_of name ++ ".down.sql")).isSome = true) ∧
    (down_sql.getD "" = "" →
      (create_files st name up_sql down_sql now_iso version).1.down_file = none) ∧
    (create_files st name up_sql down_sql now_iso version).2.ledger = st.ledger ∧
    (create_files st name up_sql down_sql now_iso version).2.schema = st.schema := by
  by_cases hd : down_sql.getD "" ≠ ""
  · have hcf : create_files st name up_sql down_sql now_iso version =
        ({success := true, version := version, name := safe_name_of name,
          up_file := version ++ "_" ++ safe_name_of name ++ ".up.sql",
          down_file := some (version ++ "_" ++ safe_name_of name ++ ".down.sql")},
         {st with fs := (writeFileFs
            (writeFileFs st.fs (version ++ "_" ++ safe_name_of name ++ ".up.sql")
              (upFileContent version (safe_name_of name) now_iso name up_sql))
            (version ++ "_" ++ safe_name_of name ++ ".down.sql")
            (downFileContent version (safe_name_of name) now_iso
              (down_sql.getD "")))}) := by
      simp only [create_files, if_pos hd]
    rw [hcf]
    refine ⟨rfl, rfl, rfl, rfl, ?_, fun _ => ⟨rfl, ?_⟩,
      fun he => absurd he hd, rfl, rfl⟩
    · rw [lookupFile_writeFileFs_ne _ _ _ _
        (fun hx => up_ne_down (version ++ "_" ++ safe_name_of name) hx.symm)]
      rw [lookupFile_writeFileFs]
      rfl
    · rw [lookupFile_writeFileFs]
      rfl
  · have hcf : create_files st name up_sql down_sql now_iso version =
        ({success := true, version := version, name := safe_name_of name,
          up_file := version ++ "_" ++ safe_name_of name ++ ".up.sql",
          down_file := none},
         {st with fs := (writeFileFs st.fs
            (version ++ "_" ++ safe_name_of name ++ ".up.sql")
            (upFileContent version (safe_name_of name) now_iso name up_sql))}) := by
      simp only [create_files, if_neg hd]
    rw [hcf]
    refine ⟨rfl, rfl, rfl, rfl, ?_, fun hdd => absurd hdd hd, fun _ => rfl, rfl, rfl⟩
    rw [lookupFile_writeFileFs]
    rfl

/-- Claim C8: `create_migration` gives version "001" on an empty catalog and
`max(existing integer versions) + 1` zero-padded to width three otherwise;
the safe name lowercases and replaces spaces and hyphens with underscores; the
up file (and, for a truthy `downSql`, the down file) is written under
`{version}_{safeName}`; and the ledger and database schema are untouched. -/
theorem C8_create_migration (st : EngineState) (name up_sql now_iso : String)
    (down_sql : Option String) :
    (get_available_migrations st.fs = [] →
      (create_migration st name up_sql down_sql now_iso).isSome = true ∧
      (∀ res st2, create_migration st name up_sql down_sql now_iso =
          some (res, st2) → res.version = "001")) ∧
    (∀ vs, get_available_migrations st.fs ≠ [] →
      (get_available_migrations st.fs).mapM (fun m => pyToNat m.version) = some vs →
      (create_migration st name up_sql down_sql now_iso).isSome = true ∧
      (∀ res st2, create_migration st name up_sql down_sql now_iso =
          some (res, st2) → res.version = pad3 (vs.foldl Nat.max 0 + 1)) ∧
      (∀ w ∈ vs, w ≤ vs.foldl Nat.max 0)) ∧
    (∀ res st2, create_migration st name up_sql down_sql now_iso = some (res, st2) →
      res.success = true ∧
      res.name = safe_name_of name ∧
      res.up_file = res.version ++ "_" ++ res.name ++ ".up.sql" ∧
      (lookupFile st2.fs res.up_file).isSome = true ∧
      (down_sql.getD "" ≠ "" →
        res.down_file = some (res.version ++ "_" ++ res.name ++ ".down.sql") ∧
        (lookupFile st2.fs (res.version ++ "_" ++ res.name ++ ".down.sql")).isSome
          = true) ∧
      (down_sql.getD "" = "" → res.down_file = none) ∧
      st2.ledger = st.ledger ∧ st2.schema = st.schema) := by
  refine ⟨?_, ?_, ?_⟩
  · intro hemp
    have hov : (if (get_available_migrations st.fs).isEmpty then some "001"
        else ((get_available_migrations st.fs).mapM
          (fun m => pyToNat m.version)).map
            (fun vs => pad3 (vs.foldl Nat.max 0 + 1))) = some "001" := by
      rw [if_pos (List.isEmpty_iff.mpr hemp)]
    constructor
    · show (Option.map (create_files st name up_sql down_sql now_iso) _).isSome = true
      rw [hov]
      rfl
    · intro res st2 heq
      have heq2 : Option.map (create_files st name up_sql down_sql now_iso)
          (if (get_available_migrations st.fs).isEmpty then some "001"
           else ((get_available_migrations st.fs).mapM
             (fun m => pyToNat m.version)).map
               (fun vs => pad3 (vs.foldl Nat.max 0 + 1))) = some (res, st2) := heq
      rw [hov] at heq2
      simp only [Option.map_some'] at heq2
      have hres : (create_files st name up_sql down_sql now_iso "001").1 = res := by
        injection heq2 with h3
        rw [h3]
      rw [← hres]
      exact (create_files_spec st name up_sql down_sql now_iso "001").2.1
  · intro vs hne hmap
    have hov : (if (get_available_migrations st.fs).isEmpty then some "001"
        else ((get_available_migrations st.fs).mapM
          (fun m => pyToNat m.version)).map
            (fun vs => pad3 (vs.foldl Nat.max 0 + 1))) =
        some (pad3 (vs.foldl Nat.max 0 + 1)) := by
      rw [if_neg (fun hh => hne (List.isEmpty_iff.mp hh)), hmap]
      rfl
    refine ⟨?_, ?_, fun w hw => mem_le_foldl_max vs 0 w hw⟩
    · show (Option.map (create_files st name up_sql down_sql now_iso) _).isSome = true
      rw [hov]
      rfl
    · intro res st2 heq
      have heq2 : Option.map (create_files st name up_sql down_sql now_iso)
          (if (get_available_migrations st.fs).isEmpty then some "001"
           else ((get_available_migrations st.fs).mapM
             (fun m => pyToNat m.version)).map
               (fun vs => pad3 (vs.foldl Nat.max 0 + 1))) = some (res, st2) := heq
      rw [hov] at heq2
      simp only [Option.map_some'] at heq2
      have hres : (create_files st name up_sql down_sql now_iso
          (pad3 (vs.foldl Nat.max 0 + 1))).1 = res := by
        injection heq2 with h3
        rw [h3]
      rw [← hres]
      exact (create_files_spec st name up_sql down_sql now_iso _).2.1
  · intro res st2 heq
    have heq2 : Option.map (create_files st name up_sql down_sql now_iso)
        (if (get_available_migrations st.fs).isEmpty then some "001"
         else ((get_available_migrations st.fs).mapM
           (fun m => pyToNat m.version)).map
             (fun vs => pad3 (vs.foldl Nat.max 0 + 1))) = some (res, st2) := heq
    rcases Option.map_eq_some'.mp heq2 with ⟨version, _, hcf⟩
    have hres : (create_files st name up_sql down_sql now_iso version).1 = res := by
      rw [hcf]
    have hst2 : (create_files st name up_sql down_sql now_iso version).2 = st2 := by
      rw [hcf]
    rcases create_files_spec st name up_sql down_sql now_iso version with
      ⟨h1, h2, h3, h4, h5, h6, h7, h8, h9⟩
    rw [hres] at h1 h2 h3 h4 h7
    rw [hst2] at h5 h8 h9
    rw [hres, hst2] at h6
    refine ⟨h1, h3, ?_, ?_, ?_, h7, h8, h9⟩
    · rw [h2, h3]
      exact h4
    · rw [h4]
      exact h5
    · intro hdd
      rw [h2, h3]
      exact h6 hdd

/-- Concrete state for the C8 witness: two existing migrations, versions 2
and 7. -/
def stC8 : EngineState :=
  { fs := [("002_x.up.sql", "U"), ("007_y.up.sql", "V")], ledger := [], schema := 5 }

/-- Witness for C8: creation on an empty catalog yields "001"; on `stC8` it
yields `pad3 (max 2 7 + 1)` = "008", writes the up and down files under
`{version}_{safe name}`, and leaves ledger and schema alone. -/
theorem C8_witness :
    (∃ res st2, create_migration ⟨[], [], 3⟩ "Add Users" "CREATE TABLE u"
        (some "DROP TABLE u") "T" = some (res, st2) ∧ res.version = "001") ∧
    (∃ res st2, create_migration stC8 "Add Users" "CREATE TABLE u"
        (some "DROP TABLE u") "T" = some (res, st2) ∧
      res.version = pad3 ([2, 7].foldl Nat.max 0 + 1) ∧
      res.name = safe_name_of "Add Users" ∧
      res.up_file = res.version ++ "_" ++ res.name ++ ".up.sql" ∧
      (lookupFile st2.fs res.up_file).isSome = true ∧
      res.down_file = some (res.version ++ "_" ++ res.name ++ ".down.sql") ∧
      st2.ledger = stC8.ledger ∧ st2.schema = stC8.schema) := by
  have hA := C8_create_migration ⟨[], [], 3⟩ "Add Users" "CREATE TABLE u" "T"
    (some "DROP TABLE u")
  have hB := C8_create_migration stC8 "Add Users" "CREATE TABLE u" "T"
    (some "DROP TABLE u")
  constructor
  · rcases Option.isSome_iff_exists.mp (hA.1 (by decide)).1 with ⟨⟨res, st2⟩, hpr⟩
    exact ⟨res, st2, hpr, (hA.1 (by decide)).2 res st2 hpr⟩
  · rcases Option.isSome_iff_exists.mp
      (hB.2.1 [2, 7] (by decide) (by decide)).1 with ⟨⟨res, st2⟩, hpr⟩
    have h3 := hB.2.2 res st2 hpr
    exact ⟨res, st2, hpr,
      (hB.2.1 [2, 7] (by decide) (by decide)).2.1 res st2 hpr,
      h3.2.1, h3.2.2.1, h3.2.2.2.1, (h3.2.2.2.2.1 (by decide)).1,
      h3.2.2.2.2.2.2.1, h3.2.2.2.2.2.2.2⟩

/-- Counterexample to C6 as stated: a failing `run_query` reports the error
but its result carries no `success` key at all, and `inspect_schema` with an
empty table name propagates a raw driver error to the caller instead of
converting it into a failure result. -/
theorem C6_counterexample :
    ((run_query (fun _ => Except.error "boom") "SELECT 1").success = none ∧
     (run_query (fun _ => Except.error "boom") "SELECT 1").error = some "boom") ∧
    (inspect_schema (fun _ => (Except.ok "info" : Except String String))
       (Except.error "db down") "" = Except.error "db down") := by
  exact ⟨⟨rfl, rfl⟩, rfl⟩

/-- Every apply result either reports an error or is a success. -/
theorem apply_error_or_success (exec : String → Nat → Except String Nat)
    (st : EngineState) (v : String) (dry : Bool) (now t : Nat) :
    (apply_migration exec st v dry now t).1.error ≠ none ∨
    (apply_migration exec st v dry now t).1.success = true := by
  cases h : dictByVersion (get_available_migrations st.fs) v with
  | none => left; simp [apply_migration, h]
  | some m =>
      by_cases hc :
          ((get_applied_migrations st.ledger).map (·.version)).contains v = true
      · left
        simp only [apply_migration, h, hc, eq_self_iff_true, if_true]
        simp
      · rw [Bool.not_eq_true] at hc
        by_cases hdry : dry = true
        · right
          simp only [apply_migration, h, hc, Bool.false_eq_true, if_false, hdry,
            eq_self_iff_true, if_true]
        · have hdry0 : dry = false := by rwa [Bool.not_eq_true] at hdry
          cases he : exec ((lookupFile st.fs m.path).getD "") st.schema with
          | error e2 =>
              left
              simp only [apply_migration, h, hc, Bool.false_eq_true, if_false,
                hdry0, he]
              simp
          | ok s2 =>
              right
              simp only [apply_migration, h, hc, Bool.false_eq_true, if_false,
                hdry0, he]

/-- Every rollback result either reports an error or is a success. -/
theorem rollback_error_or_success (exec : String → Nat → Except String Nat)
    (st : EngineState) (v : String) (dry : Bool) :
    (rollback_migration exec st v dry).1.error ≠ none ∨
    (rollback_migration exec st v dry).1.success = true := by
  cases h : dictByVersion (get_available_migrations st.fs) v with
  | none => left; simp [rollback_migration, h]
  | some m =>
      by_cases hdn :
          (lookupFile st.fs (pyReplace m.path ".up.sql" ".down.sql")).isNone = true
      · left; simp [rollback_migration, h, hdn]
      · rw [Bool.not_eq_true] at hdn
        by_cases hc :
            ((get_applied_migrations st.ledger).map (·.version)).contains v = true
        · by_cases hdry : dry = true
          · right
            simp only [rollback_migration, h, hdn, hc, Bool.false_eq_true,
              if_false, Bool.not_true, hdry, eq_self_iff_true, if_true]
          · have hdry0 : dry = false := by rwa [Bool.not_eq_true] at hdry
            cases he : exec
                ((lookupFile st.fs (pyReplace m.path ".up.sql" ".down.sql")).getD "")
                st.schema with
            | error e2 =>
                left
                simp only [rollback_migration, h, hdn, hc, Bool.false_eq_true,
                  if_false, Bool.not_true, hdry0, he]
                simp
            | ok s2 =>
                right
                simp only [rollback_migration, h, hdn, hc, Bool.false_eq_true,
                  if_false, Bool.not_true, hdry0, he]
        · rw [Bool.not_eq_true] at hc
          left
          simp only [rollback_migration, h, hdn, hc, Bool.false_eq_true, if_false,
            Bool.not_false, eq_self_iff_true, if_true]
          simp

/-- Claim C6 (amended): the engine operations `apply_migration` and
`rollback_migration` return a result with an explicit `success` flag and, on
failure, a human-readable error string; `run_query` reports every failure
(safety block or driver error) as an `error` string in the result but never
sets a `success` key; `inspect_schema` for a named table catches the driver
error and reports it in the result, while for the empty table name a driver
error from listing tables escapes to the caller. -/
theorem C6_error_reporting
    (exec : String → Nat → Except String Nat) (st : EngineState) (v : String)
    (dry : Bool) (now t : Nat)
    (execQ : String → Except String (Option (List String × List (List String))))
    (q e : String) {β : Type} (inspectTable : String → Except String β)
    (listTables : Except String (List String)) (table : String) :
    ((apply_migration exec st v dry now t).1.success = false →
      (apply_migration exec st v dry now t).1.error ≠ none) ∧
    ((rollback_migration exec st v dry).1.success = false →
      (rollback_migration exec st v dry).1.error ≠ none) ∧
    ((run_query execQ q).success = none) ∧
    (execQ q = Except.error e → (run_query execQ q).error ≠ none) ∧
    (table ≠ "" → ∃ r, inspect_schema inspectTable listTables table = Except.ok r ∧
      (inspectTable table = Except.error e → r.error = some e)) ∧
    (table = "" → listTables = Except.error e →
      inspect_schema inspectTable listTables table = Except.error e) := by
  refine ⟨?_, ?_, ?_, ?_, ?_, ?_⟩
  · intro hfail
    rcases apply_error_or_success exec st v dry now t with hok | hok
    · exact hok
    · rw [hfail] at hok
      cases hok
  · intro hfail
    rcases rollback_error_or_success exec st v dry with hok | hok
    · exact hok
    · rw [hfail] at hok
      cases hok
  · cases hf : dangerous.find? (fun kw => strContains (pyUpper q) kw) with
    | some kw => simp only [run_query, hf]
    | none =>
        cases he : execQ q with
        | error e2 => simp only [run_query, hf, he]
        | ok o =>
            cases o with
            | none => simp only [run_query, hf, he]
            | some cr => simp only [run_query, hf, he]
  · intro he
    cases hf : dangerous.find? (fun kw => strContains (pyUpper q) kw) with
    | some kw => simp [run_query, hf]
    | none => simp [run_query, hf, he]
  · intro htab
    simp only [inspect_schema]
    rw [if_pos htab]
    cases hi : inspectTable table with
    | ok r =>
        refine ⟨{info := some r}, rfl, ?_⟩
        intro hctr
        exact Except.noConfusion hctr
    | error e2 =>
        refine ⟨{error := some e2}, rfl, ?_⟩
        intro hctr
        injection hctr with h2
        rw [h2]
  · intro htab hlist
    simp only [inspect_schema]
    rw [if_neg (by rw [htab]; exact fun hh => hh rfl), hlist]

/-- Witness for the amended C6 at concrete inputs. -/
theorem C6_witness :
    ((apply_migration execBoom stC4 "999" false 0 0).1.success = false →
      (apply_migration execBoom stC4 "999" false 0 0).1.error ≠ none) ∧
    ((run_query (fun _ => Except.error "boom") "SELECT 2").success = none) ∧
    ((run_query (fun _ => Except.error "boom") "SELECT 2").error ≠ none) ∧
    (∃ r, inspect_schema (fun _ => (Except.error "tbl gone" : Except String String))
        (Except.ok []) "users" = Except.ok r ∧ r.error = some "tbl gone") ∧
    (inspect_schema (fun _ => (Except.ok "i" : Except String String))
        (Except.error "db down") "" = Except.error "db down") := by
  have h1 := C6_error_reporting execBoom stC4 "999" false 0 0
    (fun _ => Except.error "boom") "SELECT 2" "boom"
    (fun _ => (Except.error "tbl gone" : Except String String)) (Except.ok []) "users"
  have h2 := C6_error_reporting execBoom stC4 "999" false 0 0
    (fun _ => Except.error "boom") "SELECT 2" "db down"
    (fun _ => (Except.ok "i" : Except String String)) (Except.error "db down") ""
  have h3 := C6_error_reporting execBoom stC4 "999" false 0 0
    (fun _ => Except.error "boom") "SELECT 2" "tbl gone"
    (fun _ => (Except.error "tbl gone" : Except String String)) (Except.ok []) "users"
  rcases h3.2.2.2.2.1 (by decide) with ⟨r, hr1, hr2⟩
  exact ⟨h1.1, h1.2.2.1, h1.2.2.2.1 rfl, ⟨r, hr1, hr2 rfl⟩,
    h2.2.2.2.2.2 rfl rfl⟩
